import Mathlib

/-!
Shallow embedding of `src/nequip/nn/_grad_output.py`: the `GradientOutput`
wrapper (gradients of a batch-summed scalar field of a wrapped model with
respect to named input fields) and the `StressOutput` wrapper (forces and
virial stress through a synthetic strain variable).

Tensors are modelled at the value level: a tensor is a requires-grad flag
together with its numeric contents over `ℚ`.  The batched graph state
(`AtomicDataDict`) is an insertion-ordered association list from field name
to tensor, with Python-dict update semantics.  Exceptions that escape a
`forward` call carry the state as mutated up to the raise point, mirroring
the in-place mutation of the caller-owned dict (the nequip convention is
that wrapped modules mutate and return the same dict object).

The reverse-mode differentiation engine (`torch.autograd.grad`) is external
to this file and is passed to `forward` as a parameter `gradFn`, applied to
exactly the data the source passes it: the batch-summed scalar, the list of
wrt tensors captured before the wrapped model ran, and the `create_graph`
flag (the module training flag).
-/

namespace NequipGrad

/-- A 3-vector of rationals (one atomic position, or one lattice row). -/
structure Vec3 where
  x : ℚ
  y : ℚ
  z : ℚ
deriving DecidableEq

/-- A 3x3 matrix of rationals as three rows (a cell, or a strain matrix). -/
structure Mat3 where
  r0 : Vec3
  r1 : Vec3
  r2 : Vec3
deriving DecidableEq

def Vec3.zero : Vec3 := ⟨0, 0, 0⟩

def Mat3.zero : Mat3 := ⟨Vec3.zero, Vec3.zero, Vec3.zero⟩

def Vec3.add (a b : Vec3) : Vec3 := ⟨a.x + b.x, a.y + b.y, a.z + b.z⟩

def Vec3.neg (a : Vec3) : Vec3 := ⟨-a.x, -a.y, -a.z⟩

def Vec3.scale (q : ℚ) (a : Vec3) : Vec3 := ⟨q * a.x, q * a.y, q * a.z⟩

def Vec3.dot (a b : Vec3) : ℚ := a.x * b.x + a.y * b.y + a.z * b.z

/-- `torch.cross(a, b, dim=1)` on a pair of 3-vectors. -/
def Vec3.cross (a b : Vec3) : Vec3 :=
  ⟨a.y * b.z - a.z * b.y, a.z * b.x - a.x * b.z, a.x * b.y - a.y * b.x⟩

/-- A row vector times a matrix: `(p.unsqueeze(-2) @ S).squeeze(-2)`. -/
def Vec3.rowMul (p : Vec3) (s : Mat3) : Vec3 :=
  ⟨p.x * s.r0.x + p.y * s.r1.x + p.z * s.r2.x,
   p.x * s.r0.y + p.y * s.r1.y + p.z * s.r2.y,
   p.x * s.r0.z + p.y * s.r1.z + p.z * s.r2.z⟩

def Mat3.add (a b : Mat3) : Mat3 := ⟨a.r0.add b.r0, a.r1.add b.r1, a.r2.add b.r2⟩

def Mat3.neg (a : Mat3) : Mat3 := ⟨a.r0.neg, a.r1.neg, a.r2.neg⟩

def Mat3.scale (q : ℚ) (a : Mat3) : Mat3 := ⟨a.r0.scale q, a.r1.scale q, a.r2.scale q⟩

/-- Row-by-row matrix product `torch.bmm(cell, displacement)` at one batch
entry: row i of the result is row i of `c` times `s`. -/
def Mat3.mulM (c s : Mat3) : Mat3 := ⟨c.r0.rowMul s, c.r1.rowMul s, c.r2.rowMul s⟩

/-- The scalar triple product `row0 . (row1 x row2)` of a cell. -/
def Mat3.volume (c : Mat3) : ℚ := c.r0.dot (c.r1.cross c.r2)

/-- Contents of one tensor: a flat batch of 3-vectors (shape `(n, 3)`), of
3x3 matrices (shape `(n, 3, 3)`), of scalars (shape `(n,)`), or of integer
indices (the `batch` tensor). -/
inductive TVal where
  | vecs : List Vec3 → TVal
  | mats : List Mat3 → TVal
  | scalars : List ℚ → TVal
  | idx : List Nat → TVal
deriving DecidableEq

/-- The shape of a tensor value, as a dimension list. -/
def TVal.dims : TVal → List Nat
  | .vecs l => [l.length, 3]
  | .mats l => [l.length, 3, 3]
  | .scalars l => [l.length]
  | .idx l => [l.length]

/-- `torch.neg`, elementwise.  Gradient tensors are never integer tensors,
so the `idx` branch is unreachable in this development. -/
def TVal.neg : TVal → TVal
  | .vecs l => .vecs (l.map Vec3.neg)
  | .mats l => .mats (l.map Mat3.neg)
  | .scalars l => .scalars (l.map Neg.neg)
  | .idx l => .idx l

/-- `.sum()` over all entries of the tensor. -/
def TVal.sum : TVal → ℚ
  | .vecs l => l.foldl (fun a v => a + v.x + v.y + v.z) 0
  | .mats l => l.foldl (fun a m => a + m.r0.x + m.r0.y + m.r0.z
      + m.r1.x + m.r1.y + m.r1.z + m.r2.x + m.r2.y + m.r2.z) 0
  | .scalars l => l.foldl (· + ·) 0
  | .idx l => l.foldl (fun a n => a + (n : ℚ)) 0

/-- A tensor: its autograd requires-grad flag and its value. -/
structure Tensor where
  requiresGrad : Bool
  val : TVal
deriving DecidableEq

/-- `torch.neg(t)`: a fresh tensor with negated entries.  The result of the
op keeps participating in the graph exactly when the input does, which the
flag records at this level of abstraction. -/
def Tensor.neg (t : Tensor) : Tensor := ⟨t.requiresGrad, t.val.neg⟩

/-- `t.requires_grad_(b)`: in-place update of the flag. -/
def Tensor.setFlag (t : Tensor) (b : Bool) : Tensor := ⟨b, t.val⟩

/-- The `AtomicDataDict`: an insertion-ordered map from field name to
tensor with Python-dict semantics. -/
abbrev ADict := List (String × Tensor)

namespace ADict

/-- `k in data` / `data.get(k)`. -/
def get? (d : ADict) (k : String) : Option Tensor :=
  match d with
  | [] => none
  | (k₁, t) :: rest => if k₁ = k then some t else get? rest k

/-- `data[k] = v`: replace in place if present (keeping insertion order),
else append. -/
def set (d : ADict) (k : String) (v : Tensor) : ADict :=
  match d with
  | [] => [(k, v)]
  | (k₁, t) :: rest => if k₁ = k then (k₁, v) :: rest else (k₁, t) :: set rest k v

/-- `del data[k]` once `k` is known present.  Python dict keys are unique,
so removing every binding of `k` is the same operation. -/
def drop (d : ADict) (k : String) : ADict :=
  match d with
  | [] => []
  | (k₁, t) :: rest => if k₁ = k then drop rest k else (k₁, t) :: drop rest k

@[simp] theorem get?_set_self (d : ADict) (k : String) (v : Tensor) :
    (d.set k v).get? k = some v := by
  induction d with
  | nil => simp [set, get?]
  | cons hd rest ih =>
    by_cases h : hd.1 = k <;> simp [set, get?, h, ih]

theorem get?_set_ne (d : ADict) (k k₂ : String) (v : Tensor) (h : k₂ ≠ k) :
    (d.set k v).get? k₂ = d.get? k₂ := by
  induction d with
  | nil => simp [set, get?, Ne.symm h]
  | cons hd rest ih =>
    obtain ⟨k₁, t⟩ := hd
    by_cases h1 : k₁ = k
    · subst h1
      simp [set, get?, Ne.symm h]
    · by_cases h2 : k₁ = k₂ <;> simp [set, get?, h1, h2, h, ih]

@[simp] theorem get?_drop_self (d : ADict) (k : String) :
    (d.drop k).get? k = none := by
  induction d with
  | nil => simp [drop, get?]
  | cons hd rest ih =>
    by_cases h1 : hd.1 = k <;> simp [drop, get?, h1, ih]

theorem get?_drop_ne (d : ADict) (k k₂ : String) (h : k₂ ≠ k) :
    (d.drop k).get? k₂ = d.get? k₂ := by
  induction d with
  | nil => simp [drop, get?]
  | cons hd rest ih =>
    obtain ⟨k₁, t⟩ := hd
    by_cases h1 : k₁ = k
    · subst h1
      simp [drop, get?, Ne.symm h, ih]
    · by_cases h2 : k₁ = k₂ <;> simp [drop, get?, h1, h2, h, ih]

end ADict

/-! ## Field keys (values of `nequip.data.AtomicDataDict.*_KEY`) -/

def POSITIONS_KEY : String := "pos"

def TOTAL_ENERGY_KEY : String := "total_energy"

def FORCE_KEY : String := "forces"

def STRESS_KEY : String := "stress"

def CELL_KEY : String := "cell"

def BATCH_KEY : String := "batch"

def DISPLACEMENT_KEY : String := "_displacement"

/-! ## Representation-type (irreps) registry -/

/-- A rotation-representation descriptor, e.g. `"0e"` for the
rotation-invariant scalar. -/
abbrev Irreps := String

/-- The `0e` irreps of a rotation-invariant scalar. -/
def scalarIrreps : Irreps := "0e"

/-- A field-to-representation-type map.  A `none` entry is an unconstrained
(`None`) declaration. -/
abbrev IrrepsMap := List (String × Option Irreps)

namespace IrrepsMap

def lookup? (m : IrrepsMap) (k : String) : Option (Option Irreps) :=
  match m with
  | [] => none
  | (k₁, v) :: rest => if k₁ = k then some v else lookup? rest k

def set (m : IrrepsMap) (k : String) (v : Option Irreps) : IrrepsMap :=
  match m with
  | [] => [(k, v)]
  | (k₁, v₁) :: rest => if k₁ = k then (k₁, v) :: rest else (k₁, v₁) :: set rest k v

/-- `del m[k]`, raising `KeyError` when absent, as Python does. -/
def dropE (m : IrrepsMap) (k : String) : Except String IrrepsMap :=
  if (m.lookup? k).isSome then .ok (m.filter (fun p => p.1 ≠ k)) else .error ("KeyError: " ++ k)

/-- `dict.update`: apply every binding of `other` onto `m`, in order. -/
def updateAll (m other : IrrepsMap) : IrrepsMap :=
  other.foldl (fun acc p => acc.set p.1 p.2) m

/-- Whether two declarations for the same field are compatible: an
unconstrained (`none`) declaration matches anything. -/
def compatible : Option Irreps → Option Irreps → Bool
  | some a, some b => a = b
  | _, _ => true

end IrrepsMap

/-- Modelled from the spec: `GraphModuleMixin._init_irreps` lives in
`nequip/nn/_graph_mixin.py`, which is not under `src/`.  Per the spec it is
the type registry: it checks each of the wrapper's own input declarations
against the wrapped declarations (an unconstrained declaration is accepted
against anything, which is why the synthetic strain is declared
unconstrained), merges them into the wrapper's input set, and derives the
wrapper's output set as the inputs overwritten by the declared outputs
(registered "alongside the wrapped model's own outputs"). -/
def initIrreps (irreps_in my_irreps_in irreps_out : IrrepsMap) :
    Except String (IrrepsMap × IrrepsMap) :=
  if my_irreps_in.all (fun p =>
      match irreps_in.lookup? p.1 with
      | some v => IrrepsMap.compatible v p.2
      | none => true) then
    let iin := irreps_in.updateAll my_irreps_in
    .ok (iin, iin.updateAll irreps_out)
  else .error "ValueError: input irreps incompatible with this configuration"

/-- The wrapped model: a callable on the state (the nequip convention is
in-place mutation of the dict it receives) plus its declared input and
output representation types. -/
structure GModel where
  run : ADict → ADict
  irreps_in : IrrepsMap
  irreps_out : IrrepsMap

/-- The external reverse-mode differentiation engine
(`torch.autograd.grad`), applied to the batch-summed scalar, the captured
wrt tensors and the `create_graph` flag; a `none` entry is a gradient that
resolved to "no dependency". -/
abbrev GradFn := ℚ → List Tensor → Bool → List (Option Tensor)

/-- An exception escaping a forward call: the Python error message together
with the state as mutated up to the raise point (the caller sees those
mutations, since the dict is mutated in place). -/
abbrev FErr := String × ADict

/-- The outcome of a forward call. -/
abbrev FRes := Except FErr ADict

/-! ## GradientOutput -/

/-- `GradientOutput` (spec name: GradientComputer): wraps a model and adds
the gradients of its scalar output field as outputs. -/
structure GradientOutput where
  sign : ℚ
  _negate : Bool
  of : String
  wrt : List String
  out_field : List String
  func : GModel
  irreps_in : IrrepsMap
  irreps_out : IrrepsMap

/-- The sign-independent part of `GradientOutput.__init__` (everything
after the `sign` assertion): wrt and out-field coercion, the out-field
count assertion, `_init_irreps`, and the output irreps update
`irreps_out[f] = irreps_in[wrt]` for each pair. -/
def GradientOutput.initCore (func : GModel) (of : String)
    (wrt : Sum String (List String)) (out_field : Option (Sum String (List String))) :
    Except String (List String × List String × IrrepsMap × IrrepsMap) := do
  let wrtL := match wrt with | .inl s => [s] | .inr l => l
  let outL? : Option (List String) := match out_field with
    | none => none
    | some (.inl s) => some [s]
    | some (.inr l) => some l
  let outL ← match outL? with
    | none => Except.ok (wrtL.map fun e => "d(" ++ of ++ ")/d(" ++ e ++ ")")
    | some l =>
      if l.length = wrtL.length then Except.ok l
      else Except.error "AssertionError: Out field names must be given for all w.r.t tensors"
  let (iin, iout0) ← initIrreps func.irreps_in [(of, some scalarIrreps)] func.irreps_out
  let iout ← (outL.zip wrtL).foldlM (fun acc p =>
      match iin.lookup? p.2 with
      | some v => Except.ok (acc.set p.1 v)
      | none => Except.error ("KeyError: " ++ p.2)) iout0
  Except.ok (wrtL, outL, iin, iout)

/-- `GradientOutput.__init__`.  The `sign in (1.0, -1.0)` assertion runs
first; `_negate` records `sign == -1`. -/
def GradientOutput.init (func : GModel) (of : String)
    (wrt : Sum String (List String)) (out_field : Option (Sum String (List String)))
    (sign : ℚ) : Except String GradientOutput :=
  if sign = 1 ∨ sign = -1 then
    match GradientOutput.initCore func of wrt out_field with
    | .error e => .error e
    | .ok (wrtL, outL, iin, iout) =>
      .ok ⟨sign, decide (sign = -1), of, wrtL, outL, func, iin, iout⟩
  else .error "AssertionError: sign must be 1 or -1"

/-- Lines 70-75 of the source: for each wrt name, record the current
requires-grad flag, force it on in place, and capture the tensor. -/
def acquireFlags : List String → ADict → List Bool → List Tensor →
    Except FErr (ADict × List Bool × List Tensor)
  | [], d, olds, ts => .ok (d, olds, ts)
  | k :: ks, d, olds, ts =>
    match d.get? k with
    | none => .error ("KeyError: " ++ k, d)
    | some t =>
      acquireFlags ks (d.set k (t.setFlag true))
        (olds ++ [t.requiresGrad]) (ts ++ [t.setFlag true])

/-- The source message has an apostrophe in the contraction of "could not";
spelled out here. -/
def gradErrorMsg : String :=
  "RuntimeError: Something is wrong, gradient could not be computed"

/-- Lines 90-96 of the source: write each gradient (negated when `_negate`)
into its output field; a `none` gradient raises at that point. -/
def writeGrads (negate : Bool) : List (String × Option Tensor) → ADict → FRes
  | [], d => .ok d
  | (_, none) :: _, d => .error (gradErrorMsg, d)
  | (out, some g) :: rest, d =>
    writeGrads negate rest (d.set out (if negate then g.neg else g))

/-- Lines 99-100 of the source: restore each wrt field's requires-grad
flag to its recorded value. -/
def restoreFlags : List (Bool × String) → ADict → FRes
  | [], d => .ok d
  | (b, k) :: rest, d =>
    match d.get? k with
    | none => .error ("KeyError: " ++ k, d)
    | some t => restoreFlags rest (d.set k (t.setFlag b))

/-- `GradientOutput.forward`. -/
def GradientOutput.forward (gradFn : GradFn) (training : Bool)
    (g : GradientOutput) (data0 : ADict) : FRes :=
  match acquireFlags g.wrt data0 [] [] with
  | .error e => .error e
  | .ok (d1, olds, wrtTensors) =>
    let d2 := g.func.run d1
    match d2.get? g.of with
    | none => .error ("KeyError: " ++ g.of, d2)
    | some ofT =>
      let grads := gradFn ofT.val.sum wrtTensors training
      match writeGrads g._negate (g.out_field.zip grads) d2 with
      | .error e => .error e
      | .ok d3 => restoreFlags (olds.zip g.wrt) d3

/-- The `ForceOutput` convenience constructor. -/
def ForceOutput (energy_model : GModel) : Except String GradientOutput :=
  GradientOutput.init energy_model TOTAL_ENERGY_KEY (.inl POSITIONS_KEY)
    (some (.inl FORCE_KEY)) (-1)

/-! ## StressOutput -/

/-- `StressOutput` (spec name: StressForceComputer). -/
structure StressOutput where
  do_forces : Bool
  _grad : GradientOutput
  irreps_in : IrrepsMap
  irreps_out : IrrepsMap

/-- `StressOutput.__init__`: rejects `do_forces=False` with
`NotImplementedError`; declares the synthetic strain unconstrained on the
wrapped model; builds the internal `GradientOutput` with
`wrt=[positions, _displacement]`, `out_field=[force, stress]` and default
sign `1`; then rebuilds its own irreps with the cell added, asserting the
positions field is present, and the strain hidden from both sets. -/
def StressOutput.init (energy_model : GModel) (do_forces : Bool) :
    Except String StressOutput :=
  if do_forces then
    let em : GModel :=
      { energy_model with
        irreps_in := energy_model.irreps_in.set DISPLACEMENT_KEY none }
    match GradientOutput.init em TOTAL_ENERGY_KEY
        (.inr [POSITIONS_KEY, DISPLACEMENT_KEY])
        (some (.inr [FORCE_KEY, STRESS_KEY])) 1 with
    | .error e => .error e
    | .ok g =>
      if (g.irreps_in.lookup? POSITIONS_KEY).isSome then
        let irreps_in1 := g.irreps_in.set CELL_KEY none
        match irreps_in1.dropE DISPLACEMENT_KEY with
        | .error e => .error e
        | .ok irreps_in2 =>
          match initIrreps irreps_in2 [] g.irreps_out with
          | .error e => .error e
          | .ok (iin, iout0) =>
            match iout0.dropE DISPLACEMENT_KEY with
            | .error e => .error e
            | .ok iout => .ok ⟨do_forces, g, iin, iout⟩
      else .error "AssertionError: positions missing from irreps_in"
  else .error "NotImplementedError"

/-- Modelled from the spec: `AtomicDataDict.with_batch` (from
`nequip.data`, not under `src/`) ensures a per-atom `batch` index field
exists, deriving the trivial single-configuration (all-zero) index from the
positions when the field is absent. -/
def with_batch (d : ADict) : Except FErr ADict :=
  if (d.get? BATCH_KEY).isSome then .ok d
  else
    match d.get? POSITIONS_KEY with
    | some p =>
      match p.val with
      | .vecs ps => .ok (d.set BATCH_KEY ⟨false, .idx (List.replicate ps.length 0)⟩)
      | _ => .error ("TypeError: positions", d)
    | none => .error ("KeyError: " ++ POSITIONS_KEY, d)

/-- `cell.view(-1, 3, 3).expand(num_batch, 3, 3)`: a single shared cell is
broadcast to every configuration; a per-configuration cell must already
have the right count. -/
def expandCells (l : List Mat3) (n : Nat) : Option (List Mat3) :=
  if l.length = n then some l
  else match l with
    | [c] => some (List.replicate n c)
    | _ => none

/-- Lines 168-192 of the source, the part of `StressOutput.forward` before
the internal gradient call: batch/cell normalization, the zero strain
tensor (requires-grad forced on), and the deformation of positions
(`p + p . S(batch(p))`) and cell (`C + C . S`).  Returns the perturbed
state, the batch list, `num_batch`, and the cell value bound by the
`cell = data[CELL]` local (read after normalization, before the
perturbation is stored), which the volume is later computed from. -/
def stressPre (data0 : ADict) : Except FErr (ADict × List Nat × Nat × List Mat3) :=
  match with_batch data0 with
  | .error e => .error e
  | .ok d0 =>
    match d0.get? BATCH_KEY with
    | none => .error ("KeyError: " ++ BATCH_KEY, d0)
    | some bT =>
      match bT.val with
      | .idx batchL =>
        if batchL.isEmpty then .error ("RuntimeError: max on empty tensor", d0)
        else
          let num_batch := batchL.foldl Nat.max 0 + 1
          match d0.get? CELL_KEY with
          | none => .error ("KeyError: " ++ CELL_KEY, d0)
          | some cT =>
            match cT.val with
            | .mats cl =>
              match expandCells cl num_batch with
              | none => .error ("RuntimeError: expand", d0)
              | some cellE =>
                let d1 := d0.set CELL_KEY ⟨cT.requiresGrad, .mats cellE⟩
                let dispL := List.replicate num_batch Mat3.zero
                let displacement0 : Tensor := ⟨false, .mats dispL⟩
                let displacement := displacement0.setFlag true
                let d2 := d1.set DISPLACEMENT_KEY displacement
                match d2.get? POSITIONS_KEY with
                | none => .error ("KeyError: " ++ POSITIONS_KEY, d2)
                | some pT =>
                  match pT.val with
                  | .vecs posL =>
                    if posL.length = batchL.length then
                      let newPos := List.zipWith
                        (fun p b => p.add (p.rowMul (dispL.getD b Mat3.zero))) posL batchL
                      let d3 := d2.set POSITIONS_KEY
                        ⟨pT.requiresGrad || displacement.requiresGrad, .vecs newPos⟩
                      match d3.get? CELL_KEY with
                      | none => .error ("KeyError: " ++ CELL_KEY, d3)
                      | some cT2 =>
                        match cT2.val with
                        | .mats cellT =>
                          let newCell := List.zipWith
                            (fun c s => c.add (c.mulM s)) cellT dispL
                          let d4 := d3.set CELL_KEY
                            ⟨cT2.requiresGrad || displacement.requiresGrad, .mats newCell⟩
                          .ok (d4, batchL, num_batch, cellT)
                        | _ => .error ("TypeError: cell", d3)
                    else .error ("RuntimeError: bmm batch size mismatch", d2)
                  | _ => .error ("TypeError: positions", d2)
            | _ => .error ("TypeError: cell", d0)
      | _ => .error ("TypeError: batch", d0)

/-- Lines 197-214 of the source, after the internal gradient call: negate
the force field, divide the stress field per configuration by the volume of
the pre-perturbation cell binding (scalar triple product of its rows), and
delete the synthetic strain field.  Rational division by a zero volume
yields `0` here where IEEE arithmetic would give a non-finite value; the
source does not trap that case either. -/
def stressPost (cellT : List Mat3) (num_batch : Nat) (d0 : ADict) : FRes :=
  match d0.get? FORCE_KEY with
  | none => .error ("KeyError: " ++ FORCE_KEY, d0)
  | some f =>
    let d1 := d0.set FORCE_KEY f.neg
    let vols := cellT.map Mat3.volume
    if vols.length = num_batch then
      match d1.get? STRESS_KEY with
      | none => .error ("KeyError: " ++ STRESS_KEY, d1)
      | some st =>
        match st.val with
        | .mats sl =>
          if sl.length = vols.length then
            let d2 := d1.set STRESS_KEY
              ⟨st.requiresGrad, .mats (List.zipWith (fun m v => m.scale v⁻¹) sl vols)⟩
            if (d2.get? DISPLACEMENT_KEY).isSome then .ok (d2.drop DISPLACEMENT_KEY)
            else .error ("KeyError: " ++ DISPLACEMENT_KEY, d2)
          else .error ("RuntimeError: stress and volume shapes differ", d1)
        | _ => .error ("TypeError: stress", d1)
    else .error ("AssertionError: len volume equals num batch", d1)

/-- `StressOutput.forward`: perturbation, internal gradient call,
post-processing. -/
def StressOutput.forward (gradFn : GradFn) (training : Bool)
    (m : StressOutput) (data0 : ADict) : FRes :=
  match stressPre data0 with
  | .error e => .error e
  | .ok (d1, _, num_batch, cellT) =>
    match m._grad.forward gradFn training d1 with
    | .error e => .error e
    | .ok d2 => stressPost cellT num_batch d2

/-! ## Concrete instances, used to evaluate the theorems on closed inputs -/

/-- An all-ones tensor value of the same shape. -/
def onesLike : TVal → TVal
  | .vecs l => .vecs (l.map fun _ => ⟨1, 1, 1⟩)
  | .mats l => .mats (l.map fun _ => ⟨⟨1, 1, 1⟩, ⟨1, 1, 1⟩, ⟨1, 1, 1⟩⟩)
  | .scalars l => .scalars (l.map fun _ => 1)
  | .idx l => .idx l

/-- A well-connected differentiation engine: every gradient exists and has
the shape of its wrt tensor. -/
def gfConst : GradFn := fun _ ts _ => ts.map (fun t => some ⟨true, onesLike t.val⟩)

/-- A fully disconnected differentiation engine: every gradient resolves to
"no dependency". -/
def gfNone : GradFn := fun _ ts _ => ts.map (fun _ => none)

/-- Only the first wrt entry is disconnected. -/
def gfDropFirst : GradFn := fun _ ts _ =>
  match ts with
  | [] => []
  | _ :: rest => none :: rest.map (fun t => some ⟨true, onesLike t.val⟩)

/-- Only the second wrt entry is disconnected. -/
def gfDropSecond : GradFn := fun _ ts _ =>
  match ts with
  | [] => []
  | t :: rest => some ⟨true, onesLike t.val⟩ :: rest.map (fun _ => none)

/-- A toy energy model: writes a constant total energy and declares
positions as its vector input. -/
def emTest : GModel :=
  { run := fun d => d.set TOTAL_ENERGY_KEY ⟨true, .scalars [5]⟩
    irreps_in := [(POSITIONS_KEY, some "1o")]
    irreps_out := [(TOTAL_ENERGY_KEY, some scalarIrreps)] }

/-- A toy energy model that also declares a cell input. -/
def emTest2 : GModel :=
  { run := fun d => d.set TOTAL_ENERGY_KEY ⟨true, .scalars [5]⟩
    irreps_in := [(POSITIONS_KEY, some "1o"), (CELL_KEY, none)]
    irreps_out := [(TOTAL_ENERGY_KEY, some scalarIrreps)] }

/-- A model whose total-energy field is declared with a non-scalar
representation type. -/
def emBadOf : GModel :=
  { run := fun d => d
    irreps_in := [(TOTAL_ENERGY_KEY, some "1o"), (POSITIONS_KEY, some "1o")]
    irreps_out := [] }

def getOk {α : Type} (e : Except String α) (dflt : α) : α :=
  match e with | .ok a => a | .error _ => dflt

/-- The state an ok forward result returned. -/
def okState (e : FRes) : ADict :=
  match e with | .ok d => d | .error _ => []

/-- The state carried by an exceptional forward result. -/
def errState (e : FRes) : ADict :=
  match e with | .error (_, s) => s | .ok _ => []

/-- The diagnostic carried by an exceptional forward result. -/
def errMsgOf (e : FRes) : Option String :=
  match e with | .error (m, _) => some m | .ok _ => none

def gDefault : GradientOutput := ⟨1, false, "", [], [], emTest, [], []⟩

def sDefault : StressOutput := ⟨true, gDefault, [], []⟩

/-- `GradientOutput(emTest, total_energy, positions, forces, sign=+1)`. -/
def gTestP : GradientOutput :=
  getOk (GradientOutput.init emTest TOTAL_ENERGY_KEY (.inl POSITIONS_KEY)
    (some (.inl FORCE_KEY)) 1) gDefault

/-- The same wrapper with `sign=-1`. -/
def gTestM : GradientOutput :=
  getOk (GradientOutput.init emTest TOTAL_ENERGY_KEY (.inl POSITIONS_KEY)
    (some (.inl FORCE_KEY)) (-1)) gDefault

/-- A two-entry wrapper, differentiating by positions and cell. -/
def gTest2 : GradientOutput :=
  getOk (GradientOutput.init emTest2 TOTAL_ENERGY_KEY
    (.inr [POSITIONS_KEY, CELL_KEY]) none 1) gDefault

/-- `StressOutput(emTest)`. -/
def sTest : StressOutput := getOk (StressOutput.init emTest true) sDefault

def cellId : Mat3 := ⟨⟨1, 0, 0⟩, ⟨0, 1, 0⟩, ⟨0, 0, 1⟩⟩

/-- One atom, one configuration, identity cell, no flags enabled. -/
def dTest : ADict :=
  [(POSITIONS_KEY, ⟨false, .vecs [⟨1/2, 0, 0⟩]⟩),
   (CELL_KEY, ⟨false, .mats [cellId]⟩)]

/-- One atom, positions only. -/
def dGradTest : ADict := [(POSITIONS_KEY, ⟨false, .vecs [⟨1, 2, 3⟩]⟩)]

/-- One atom with positions and a cell. -/
def dGradTest2 : ADict :=
  [(POSITIONS_KEY, ⟨false, .vecs [⟨1, 2, 3⟩]⟩),
   (CELL_KEY, ⟨false, .mats [cellId]⟩)]

instance {ε α : Type} [DecidableEq ε] [DecidableEq α] : DecidableEq (Except ε α) :=
  fun a b =>
  match a, b with
  | .ok x, .ok y =>
    if h : x = y then .isTrue (by rw [h]) else .isFalse (fun hh => h (Except.ok.inj hh))
  | .error x, .error y =>
    if h : x = y then .isTrue (by rw [h]) else .isFalse (fun hh => h (Except.error.inj hh))
  | .ok _, .error _ => .isFalse (fun hh => Except.noConfusion hh)
  | .error _, .ok _ => .isFalse (fun hh => Except.noConfusion hh)

/-! ## Inversion lemmas for the stress pipeline -/

/-- What a successful `stressPost` run did: negated the force field,
divided the stress by the volumes of the pre-perturbation cell binding,
and deleted the synthetic strain field. -/
theorem stressPost_inv (cellT : List Mat3) (nb : Nat) (d2 d' : ADict)
    (h : stressPost cellT nb d2 = .ok d') :
    ∃ f st sl,
      d2.get? FORCE_KEY = some f ∧
      d2.get? STRESS_KEY = some st ∧
      st.val = .mats sl ∧
      cellT.length = nb ∧
      sl.length = cellT.length ∧
      d' = ((d2.set FORCE_KEY f.neg).set STRESS_KEY
          ⟨st.requiresGrad,
           .mats (List.zipWith (fun m v => m.scale v⁻¹) sl (cellT.map Mat3.volume))⟩).drop
          DISPLACEMENT_KEY := by
  unfold stressPost at h
  split at h
  · exact absurd h (by simp)
  rename_i f hf
  simp only [] at h
  split at h
  · rename_i hlen
    split at h
    · exact absurd h (by simp)
    rename_i st hst
    have hst2 : d2.get? STRESS_KEY = some st := by
      rw [← hst]
      exact (ADict.get?_set_ne d2 FORCE_KEY STRESS_KEY f.neg (by decide)).symm
    split at h
    · rename_i sl hsl
      split at h
      · rename_i hslen
        split at h
        · rename_i hdisp
          refine ⟨f, st, sl, hf, hst2, hsl, ?_, ?_, ?_⟩
          · simpa using hlen
          · simpa using hslen
          · exact (Except.ok.injEq _ _).mp h.symm
        · exact absurd h (by simp)
      · exact absurd h (by simp)
    all_goals exact absurd h (by simp)
  · exact absurd h (by simp)

/-- What a successful `stressPre` run did: normalized the batch and cell,
stored the zero strain with its flag forced on, perturbed positions by
`p + p . S(batch(p))` and the cell by `C + C . S`, and bound the
pre-perturbation cell (the normalized input cell) for the later volume. -/
theorem stressPre_inv (d d1 : ADict) (batchL : List Nat) (nb : Nat)
    (cellT : List Mat3) (h : stressPre d = .ok (d1, batchL, nb, cellT)) :
    ∃ d0 bT cT cl pT posL,
      with_batch d = .ok d0 ∧
      d0.get? BATCH_KEY = some bT ∧ bT.val = .idx batchL ∧
      batchL ≠ [] ∧ nb = batchL.foldl Nat.max 0 + 1 ∧
      d0.get? CELL_KEY = some cT ∧ cT.val = .mats cl ∧
      expandCells cl nb = some cellT ∧
      d0.get? POSITIONS_KEY = some pT ∧ pT.val = .vecs posL ∧
      posL.length = batchL.length ∧
      d1 = ((((d0.set CELL_KEY ⟨cT.requiresGrad, .mats cellT⟩).set DISPLACEMENT_KEY
          (Tensor.setFlag ⟨false, .mats (List.replicate nb Mat3.zero)⟩ true)).set POSITIONS_KEY
          ⟨pT.requiresGrad || true,
           .vecs (List.zipWith (fun p b =>
             p.add (p.rowMul ((List.replicate nb Mat3.zero).getD b Mat3.zero))) posL batchL)⟩).set
          CELL_KEY
          ⟨cT.requiresGrad || true,
           .mats (List.zipWith (fun c s => c.add (c.mulM s)) cellT
             (List.replicate nb Mat3.zero))⟩) := by
  unfold stressPre at h
  split at h
  · exact absurd h (by simp)
  rename_i d0 hwb
  split at h
  · exact absurd h (by simp)
  rename_i bT hbT
  split at h
  case _ batchL0 hbv =>
    split at h
    · exact absurd h (by simp)
    rename_i hbne
    simp only [] at h
    split at h
    · exact absurd h (by simp)
    rename_i cT hcT
    split at h
    case _ cl hcv =>
      split at h
      · exact absurd h (by simp)
      rename_i cellE hexp
      split at h
      · exact absurd h (by simp)
      rename_i pT hpT
      split at h
      case _ posL hpv =>
        split at h
        · rename_i hplen
          split at h
          · exact absurd h (by simp)
          rename_i cT2 hcT2
          split at h
          case _ cellT0 hcv2 =>
            rw [Except.ok.injEq, Prod.mk.injEq, Prod.mk.injEq, Prod.mk.injEq] at h
            obtain ⟨hd1, hbeq, hnbeq, hceq⟩ := h
            subst hbeq
            subst hnbeq
            subst hceq
            -- resolve the re-read of the normalized cell through the sets
            rw [ADict.get?_set_ne _ _ _ _ (by decide : CELL_KEY ≠ POSITIONS_KEY),
                ADict.get?_set_ne _ _ _ _ (by decide : CELL_KEY ≠ DISPLACEMENT_KEY),
                ADict.get?_set_self] at hcT2
            have hcT2' : cT2 = ⟨cT.requiresGrad, .mats cellE⟩ :=
              (Option.some.injEq _ _).mp hcT2.symm
            have hcellE : cellE = cellT0 := by
              rw [hcT2'] at hcv2
              exact (TVal.mats.injEq _ _).mp hcv2
            -- resolve the positions read through the sets
            rw [ADict.get?_set_ne _ _ _ _ (by decide : POSITIONS_KEY ≠ DISPLACEMENT_KEY),
                ADict.get?_set_ne _ _ _ _ (by decide : POSITIONS_KEY ≠ CELL_KEY)] at hpT
            refine ⟨d0, bT, cT, cl, pT, posL, hwb, hbT, hbv, ?_, rfl, hcT, hcv, ?_, hpT, hpv,
              hplen, ?_⟩
            · intro hc
              rw [hc] at hbne
              exact hbne rfl
            · rw [← hcellE]
              exact hexp
            · rw [← hd1, hcT2', hcellE]
              simp [Tensor.setFlag]
          · exact absurd h (by simp)
        · exact absurd h (by simp)
      all_goals exact absurd h (by simp)
    all_goals exact absurd h (by simp)
  all_goals exact absurd h (by simp)

/-- `with_batch` only ever adds the batch field. -/
theorem with_batch_frame (d d0 : ADict) (h : with_batch d = .ok d0) (k : String)
    (hk : k ≠ BATCH_KEY) : d0.get? k = d.get? k := by
  unfold with_batch at h
  split at h
  · cases h
    rfl
  · split at h
    · split at h
      · cases h
        exact ADict.get?_set_ne _ _ _ _ hk
      all_goals exact absurd h (by simp)
    · exact absurd h (by simp)

/-- A normalized cell list has one entry per configuration. -/
theorem expandCells_length (l l' : List Mat3) (n : Nat)
    (h : expandCells l n = some l') : l'.length = n := by
  unfold expandCells at h
  split at h
  · rename_i hl
    cases h
    exact hl
  · split at h
    · cases h
      exact List.length_replicate _ _
    · exact absurd h (by simp)

theorem Vec3.rowMul_zeroMat (p : Vec3) : p.rowMul Mat3.zero = Vec3.zero := by
  simp [Vec3.rowMul, Mat3.zero, Vec3.zero]

theorem Vec3.add_zeroVec (p : Vec3) : p.add Vec3.zero = p := by
  cases p
  simp [Vec3.add, Vec3.zero]

theorem Mat3.mulM_zeroMat (c : Mat3) : c.mulM Mat3.zero = Mat3.zero := by
  simp only [Mat3.mulM, Vec3.rowMul_zeroMat]
  rfl

theorem Mat3.add_zeroMat (c : Mat3) : c.add Mat3.zero = c := by
  cases c
  simp [Mat3.add, Mat3.zero, Vec3.add_zeroVec]

theorem getD_replicate_zeroMat (nb b : Nat) :
    (List.replicate nb Mat3.zero).getD b Mat3.zero = Mat3.zero := by
  induction nb generalizing b with
  | zero => simp [List.getD]
  | succ n ih =>
    cases b with
    | zero => simp [List.replicate]
    | succ m => simp [List.replicate, ih m]

theorem zipWith_keep_left {α β : Type} (l : List α) (l2 : List β) :
    List.zipWith (fun a _ => a) l l2 = l.take l2.length := by
  induction l generalizing l2 with
  | nil => simp
  | cons a as ih =>
    cases l2 with
    | nil => simp
    | cons b bs => simp [ih]

/-- Deforming positions by the zero strain is the identity. -/
theorem perturbPos_zero (posL : List Vec3) (batchL : List Nat) (nb : Nat) :
    List.zipWith (fun p b =>
      p.add (p.rowMul ((List.replicate nb Mat3.zero).getD b Mat3.zero))) posL batchL =
    posL.take batchL.length := by
  have h1 : (fun (p : Vec3) (b : Nat) =>
      p.add (p.rowMul ((List.replicate nb Mat3.zero).getD b Mat3.zero))) =
      fun p _ => p := by
    funext p b
    rw [getD_replicate_zeroMat, Vec3.rowMul_zeroMat, Vec3.add_zeroVec]
  rw [h1]
  exact zipWith_keep_left posL batchL

/-- Deforming the cell by the zero strain is the identity. -/
theorem perturbCell_zero (cellT : List Mat3) (nb : Nat) (h : cellT.length ≤ nb) :
    List.zipWith (fun c s => c.add (c.mulM s)) cellT (List.replicate nb Mat3.zero) =
    cellT := by
  induction cellT generalizing nb with
  | nil => simp
  | cons c cs ih =>
    cases nb with
    | zero => simp at h
    | succ n =>
      simp only [List.replicate, List.zipWith, Mat3.mulM_zeroMat, Mat3.add_zeroMat]
      rw [ih n (by simpa using h)]

theorem zipWith_scale_volume (sl cs : List Mat3) :
    List.zipWith (fun m v => m.scale v⁻¹) sl (cs.map Mat3.volume) =
    List.zipWith (fun m c => m.scale (Mat3.volume c)⁻¹) sl cs := by
  induction sl generalizing cs with
  | nil => simp
  | cons a as ih =>
    cases cs with
    | nil => simp
    | cons c cs2 => simp [ih]

/-! ## Analysis of GradientOutput.forward -/

def defaultTensor : Tensor := ⟨false, .idx []⟩

theorem ADict.isSome_get?_set (d : ADict) (k k₂ : String) (v : Tensor)
    (h : (d.get? k₂).isSome) : ((d.set k v).get? k₂).isSome := by
  by_cases hk : k₂ = k
  · subst hk
    simp
  · rw [ADict.get?_set_ne _ _ _ _ hk]
    exact h

/-- The flag acquisition succeeds exactly when every wrt field is present. -/
theorem acquireFlags_ok (ks : List String) (d : ADict) (accO : List Bool)
    (accT : List Tensor) (hp : ∀ k ∈ ks, (d.get? k).isSome) :
    ∃ d1 olds ts, acquireFlags ks d accO accT = .ok (d1, olds, ts) := by
  induction ks generalizing d accO accT with
  | nil => exact ⟨d, accO, accT, rfl⟩
  | cons k ks ih =>
    obtain ⟨t, ht⟩ := Option.isSome_iff_exists.mp (hp k (by simp))
    have hrec := ih (d.set k (t.setFlag true)) (accO ++ [t.requiresGrad])
      (accT ++ [t.setFlag true]) (fun k₂ hk₂ =>
        ADict.isSome_get?_set d k k₂ _ (hp k₂ (by simp [hk₂])))
    obtain ⟨d1, olds, ts, hrec⟩ := hrec
    refine ⟨d1, olds, ts, ?_⟩
    unfold acquireFlags
    rw [ht]
    exact hrec

/-- After acquisition, every wrt field has its flag forced on and every
other field is untouched. -/
theorem acquireFlags_state (ks : List String) (d : ADict) (accO : List Bool)
    (accT : List Tensor) (d1 : ADict) (olds : List Bool) (ts : List Tensor)
    (h : acquireFlags ks d accO accT = .ok (d1, olds, ts)) (k : String) :
    d1.get? k = if k ∈ ks then (d.get? k).map (·.setFlag true) else d.get? k := by
  induction ks generalizing d accO accT with
  | nil =>
    cases h
    simp
  | cons k₁ ks ih =>
    unfold acquireFlags at h
    cases ht : d.get? k₁ with
    | none => rw [ht] at h; exact absurd h (by simp)
    | some t =>
      rw [ht] at h
      have hrec := ih (d.set k₁ (t.setFlag true)) _ _ h
      by_cases hk : k = k₁
      · subst hk
        by_cases hmem : k ∈ ks
        · rw [hrec] at *
          simp only [hmem, if_true, List.mem_cons, true_or, ADict.get?_set_self, ht]
          rfl
        · rw [hrec]
          simp only [hmem, if_false, List.mem_cons, true_or, if_true,
            ADict.get?_set_self, ht]
          rfl
      · rw [hrec, ADict.get?_set_ne _ _ _ _ hk]
        simp [List.mem_cons, hk]

/-- The captured wrt tensors are the input tensors with their flag on. -/
theorem acquireFlags_ts (ks : List String) (d : ADict) (accO : List Bool)
    (accT : List Tensor) (d1 : ADict) (olds : List Bool) (ts : List Tensor)
    (h : acquireFlags ks d accO accT = .ok (d1, olds, ts)) :
    ts = accT ++ ks.map (fun k => ((d.get? k).getD defaultTensor).setFlag true) := by
  induction ks generalizing d accO accT with
  | nil =>
    cases h
    simp
  | cons k₁ ks ih =>
    unfold acquireFlags at h
    cases ht : d.get? k₁ with
    | none => rw [ht] at h; exact absurd h (by simp)
    | some t =>
      rw [ht] at h
      have hrec := ih (d.set k₁ (t.setFlag true)) _ _ h
      rw [hrec]
      have hmaps : ks.map (fun k =>
          (((d.set k₁ (t.setFlag true)).get? k).getD defaultTensor).setFlag true) =
          ks.map (fun k => ((d.get? k).getD defaultTensor).setFlag true) := by
        refine List.map_congr_left (fun k₂ _ => ?_)
        by_cases hk : k₂ = k₁
        · subst hk
          rw [ADict.get?_set_self, ht]
          rfl
        · rw [ADict.get?_set_ne _ _ _ _ hk]
      rw [hmaps]
      simp [ht, Tensor.setFlag]

/-- With duplicate-free wrt names, the recorded old flags are the original
flags of the input fields. -/
theorem acquireFlags_olds (ks : List String) (d : ADict) (accO : List Bool)
    (accT : List Tensor) (d1 : ADict) (olds : List Bool) (ts : List Tensor)
    (h : acquireFlags ks d accO accT = .ok (d1, olds, ts)) (hnd : ks.Nodup) :
    olds = accO ++ ks.map (fun k => ((d.get? k).map Tensor.requiresGrad).getD false) := by
  induction ks generalizing d accO accT with
  | nil =>
    cases h
    simp
  | cons k₁ ks ih =>
    unfold acquireFlags at h
    cases ht : d.get? k₁ with
    | none => rw [ht] at h; exact absurd h (by simp)
    | some t =>
      rw [ht] at h
      have hnd2 := List.nodup_cons.mp hnd
      have hrec := ih (d.set k₁ (t.setFlag true)) _ _ h hnd2.2
      rw [hrec]
      have hmaps : ks.map (fun k =>
          (((d.set k₁ (t.setFlag true)).get? k).map Tensor.requiresGrad).getD false) =
          ks.map (fun k => ((d.get? k).map Tensor.requiresGrad).getD false) := by
        refine List.map_congr_left (fun k₂ hk₂ => ?_)
        have hk : k₂ ≠ k₁ := fun hh => hnd2.1 (hh ▸ hk₂)
        rw [ADict.get?_set_ne _ _ _ _ hk]
      rw [hmaps]
      simp [ht]

theorem writeGrads_ok_frame (n : Bool) (pairs : List (String × Option Tensor))
    (d d' : ADict) (h : writeGrads n pairs d = .ok d') (k : String)
    (hk : k ∉ pairs.map Prod.fst) : d'.get? k = d.get? k := by
  induction pairs generalizing d with
  | nil =>
    cases h
    rfl
  | cons p rest ih =>
    obtain ⟨o, og⟩ := p
    cases og with
    | none => exact absurd h (by simp [writeGrads])
    | some g =>
      have hk2 : k ∉ rest.map Prod.fst := fun hh => hk (by simp [hh])
      have hko : k ≠ o := fun hh => hk (by simp [hh])
      rw [ih _ h hk2, ADict.get?_set_ne _ _ _ _ hko]

/-- When a gradient write fails, the diagnostic is the fixed generic
message, and all fields outside the written prefix are untouched. -/
theorem writeGrads_err (n : Bool) (pairs : List (String × Option Tensor))
    (d : ADict) (e : FErr) (h : writeGrads n pairs d = .error e) :
    e.1 = gradErrorMsg ∧ ∀ k, k ∉ pairs.map Prod.fst → e.2.get? k = d.get? k := by
  induction pairs generalizing d with
  | nil => exact absurd h (by simp [writeGrads])
  | cons p rest ih =>
    obtain ⟨o, og⟩ := p
    cases og with
    | none =>
      cases h
      exact ⟨rfl, fun k _ => rfl⟩
    | some g =>
      obtain ⟨h1, h2⟩ := ih _ h
      refine ⟨h1, fun k hk => ?_⟩
      have hk2 : k ∉ rest.map Prod.fst := fun hh => hk (by simp [hh])
      have hko : k ≠ o := fun hh => hk (by simp [hh])
      rw [h2 k hk2, ADict.get?_set_ne _ _ _ _ hko]

theorem writeGrads_ok_of_all_some (n : Bool) (pairs : List (String × Option Tensor))
    (d : ADict) (hp : ∀ p ∈ pairs, (p.2).isSome) :
    ∃ d', writeGrads n pairs d = .ok d' := by
  induction pairs generalizing d with
  | nil => exact ⟨d, rfl⟩
  | cons p rest ih =>
    obtain ⟨o, og⟩ := p
    cases og with
    | none => exact absurd (hp (o, none) (by simp)) (by simp)
    | some g =>
      obtain ⟨d', hd'⟩ := ih (d.set o (if n then g.neg else g))
        (fun p hp2 => hp p (by simp [hp2]))
      exact ⟨d', hd'⟩

theorem writeGrads_err_of_none (n : Bool) (pairs : List (String × Option Tensor))
    (d : ADict) (hp : ∃ p ∈ pairs, p.2 = none) :
    ∃ s, writeGrads n pairs d = .error (gradErrorMsg, s) := by
  induction pairs generalizing d with
  | nil => simp at hp
  | cons p rest ih =>
    obtain ⟨o, og⟩ := p
    cases og with
    | none => exact ⟨d, rfl⟩
    | some g =>
      obtain ⟨q, hq, hqn⟩ := hp
      rcases List.mem_cons.mp hq with hq1 | hq2
      · rw [hq1] at hqn
        exact absurd hqn (by simp)
      · exact ih (d.set o (if n then g.neg else g)) ⟨q, hq2, hqn⟩

/-- With duplicate-free output names, each output field of a successful
write pass holds its (possibly negated) gradient. -/
theorem writeGrads_written (n : Bool) (pairs : List (String × Option Tensor))
    (d d' : ADict) (h : writeGrads n pairs d = .ok d')
    (hnd : (pairs.map Prod.fst).Nodup) :
    ∀ p ∈ pairs, ∃ g, p.2 = some g ∧ d'.get? p.1 = some (if n then g.neg else g) := by
  induction pairs generalizing d with
  | nil => simp
  | cons q rest ih =>
    obtain ⟨o, og⟩ := q
    cases og with
    | none => exact absurd h (by simp [writeGrads])
    | some g =>
      rw [List.map_cons] at hnd
      have hnd2 := List.nodup_cons.mp hnd
      intro p hp
      rcases List.mem_cons.mp hp with hp1 | hp2
      · subst hp1
        refine ⟨g, rfl, ?_⟩
        rw [writeGrads_ok_frame n rest _ _ h o hnd2.1, ADict.get?_set_self]
      · exact ih _ h hnd2.2 p hp2

theorem restoreFlags_ok (rs : List (Bool × String)) (d : ADict)
    (hp : ∀ p ∈ rs, (d.get? p.2).isSome) :
    ∃ d', restoreFlags rs d = .ok d' := by
  induction rs generalizing d with
  | nil => exact ⟨d, rfl⟩
  | cons p rest ih =>
    obtain ⟨b, k⟩ := p
    obtain ⟨t, ht⟩ := Option.isSome_iff_exists.mp (hp (b, k) (by simp))
    obtain ⟨d', hd'⟩ := ih (d.set k (t.setFlag b))
      (fun q hq => ADict.isSome_get?_set d k q.2 _ (hp q (by simp [hq])))
    refine ⟨d', ?_⟩
    unfold restoreFlags
    rw [ht]
    exact hd'

theorem restoreFlags_frame (rs : List (Bool × String)) (d d' : ADict)
    (h : restoreFlags rs d = .ok d') (k : String) (hk : k ∉ rs.map Prod.snd) :
    d'.get? k = d.get? k := by
  induction rs generalizing d with
  | nil =>
    cases h
    rfl
  | cons p rest ih =>
    obtain ⟨b, k₁⟩ := p
    unfold restoreFlags at h
    cases ht : d.get? k₁ with
    | none => rw [ht] at h; exact absurd h (by simp)
    | some t =>
      rw [ht] at h
      have hk2 : k ∉ rest.map Prod.snd := fun hh => hk (by simp [hh])
      have hkk : k ≠ k₁ := fun hh => hk (by simp [hh])
      rw [ih _ h hk2, ADict.get?_set_ne _ _ _ _ hkk]

/-- The restore pass only touches flags, never values. -/
theorem restoreFlags_val (rs : List (Bool × String)) (d d' : ADict)
    (h : restoreFlags rs d = .ok d') (k : String) :
    (d'.get? k).map Tensor.val = (d.get? k).map Tensor.val := by
  induction rs generalizing d with
  | nil =>
    cases h
    rfl
  | cons p rest ih =>
    obtain ⟨b, k₁⟩ := p
    unfold restoreFlags at h
    cases ht : d.get? k₁ with
    | none => rw [ht] at h; exact absurd h (by simp)
    | some t =>
      rw [ht] at h
      rw [ih _ h]
      by_cases hk : k = k₁
      · subst hk
        rw [ADict.get?_set_self, ht]
        rfl
      · rw [ADict.get?_set_ne _ _ _ _ hk]

/-- With duplicate-free wrt names, the restore pass leaves each wrt field
with exactly its recorded flag. -/
theorem restoreFlags_flags (rs : List (Bool × String)) (d d' : ADict)
    (h : restoreFlags rs d = .ok d') (hnd : (rs.map Prod.snd).Nodup) :
    ∀ p ∈ rs, (d'.get? p.2).map Tensor.requiresGrad = some p.1 := by
  induction rs generalizing d with
  | nil => simp
  | cons q rest ih =>
    obtain ⟨b, k₁⟩ := q
    unfold restoreFlags at h
    cases ht : d.get? k₁ with
    | none => rw [ht] at h; exact absurd h (by simp)
    | some t =>
      rw [ht] at h
      rw [List.map_cons] at hnd
      have hnd2 := List.nodup_cons.mp hnd
      intro p hp
      rcases List.mem_cons.mp hp with hp1 | hp2
      · subst hp1
        rw [restoreFlags_frame rest _ _ h _ hnd2.1, ADict.get?_set_self]
        rfl
      · exact ih _ h hnd2.2 p hp2

/-- Successful-run inversion for `GradientOutput.forward`. -/
theorem gradForward_ok_inv (gf : GradFn) (tr : Bool) (g : GradientOutput)
    (d d' : ADict) (h : g.forward gf tr d = .ok d') :
    ∃ dA olds ts ofT d3,
      acquireFlags g.wrt d [] [] = .ok (dA, olds, ts) ∧
      (g.func.run dA).get? g.of = some ofT ∧
      writeGrads g._negate (g.out_field.zip (gf ofT.val.sum ts tr))
        (g.func.run dA) = .ok d3 ∧
      restoreFlags (olds.zip g.wrt) d3 = .ok d' := by
  unfold GradientOutput.forward at h
  split at h
  · exact absurd h (by simp)
  rename_i dA olds ts hacq
  simp only [] at h
  split at h
  · exact absurd h (by simp)
  rename_i ofT hof
  split at h
  · exact absurd h (by simp)
  rename_i d3 hw
  exact ⟨dA, olds, ts, ofT, d3, hacq, hof, hw, h⟩

/-- Failing-run inversion for `GradientOutput.forward`. -/
theorem gradForward_err_inv (gf : GradFn) (tr : Bool) (g : GradientOutput)
    (d : ADict) (e : FErr) (h : g.forward gf tr d = .error e) :
    acquireFlags g.wrt d [] [] = .error e ∨
    ∃ dA olds ts,
      acquireFlags g.wrt d [] [] = .ok (dA, olds, ts) ∧
      (((g.func.run dA).get? g.of = none ∧
          e = ("KeyError: " ++ g.of, g.func.run dA)) ∨
       ∃ ofT, (g.func.run dA).get? g.of = some ofT ∧
         (writeGrads g._negate (g.out_field.zip (gf ofT.val.sum ts tr))
            (g.func.run dA) = .error e ∨
          ∃ d3, writeGrads g._negate (g.out_field.zip (gf ofT.val.sum ts tr))
              (g.func.run dA) = .ok d3 ∧
            restoreFlags (olds.zip g.wrt) d3 = .error e)) := by
  unfold GradientOutput.forward at h
  split at h
  · rename_i e2 hacq
    cases h
    exact Or.inl hacq
  rename_i dA olds ts hacq
  simp only [] at h
  split at h
  · rename_i hof
    cases h
    exact Or.inr ⟨dA, olds, ts, hacq, Or.inl ⟨hof, rfl⟩⟩
  rename_i ofT hof
  split at h
  · rename_i e2 hw
    cases h
    exact Or.inr ⟨dA, olds, ts, hacq, Or.inr ⟨ofT, hof, Or.inl hw⟩⟩
  rename_i d3 hw
  exact Or.inr ⟨dA, olds, ts, hacq, Or.inr ⟨ofT, hof, Or.inr ⟨d3, hw, h⟩⟩⟩

theorem acquireFlags_present (ks : List String) (d : ADict) (accO : List Bool)
    (accT : List Tensor) (d1 : ADict) (olds : List Bool) (ts : List Tensor)
    (h : acquireFlags ks d accO accT = .ok (d1, olds, ts)) :
    ∀ k ∈ ks, (d.get? k).isSome := by
  induction ks generalizing d accO accT with
  | nil => simp
  | cons k₁ ks ih =>
    unfold acquireFlags at h
    cases ht : d.get? k₁ with
    | none => rw [ht] at h; exact absurd h (by simp)
    | some t =>
      rw [ht] at h
      intro k hk
      rcases List.mem_cons.mp hk with hk1 | hk2
      · rw [hk1, ht]
        rfl
      · have := ih _ _ _ h k hk2
        by_cases hkk : k = k₁
        · rw [hkk, ht]
          rfl
        · rw [ADict.get?_set_ne _ _ _ _ hkk] at this
          exact this

/-- The length of the recorded flag list. -/
theorem acquireFlags_olds_length (ks : List String) (d : ADict) (accO : List Bool)
    (accT : List Tensor) (d1 : ADict) (olds : List Bool) (ts : List Tensor)
    (h : acquireFlags ks d accO accT = .ok (d1, olds, ts)) :
    olds.length = accO.length + ks.length := by
  induction ks generalizing d accO accT with
  | nil =>
    cases h
    simp
  | cons k₁ ks ih =>
    unfold acquireFlags at h
    cases ht : d.get? k₁ with
    | none => rw [ht] at h; exact absurd h (by simp)
    | some t =>
      rw [ht] at h
      have := ih _ _ _ h
      simp at this ⊢
      omega

theorem mem_zip_map_self {α β : Type} (f : α → β) (l : List α) (a : α) (ha : a ∈ l) :
    (f a, a) ∈ (l.map f).zip l := by
  induction l with
  | nil => simp at ha
  | cons b bs ih =>
    rcases List.mem_cons.mp ha with h1 | h2
    · subst h1
      simp
    · simp [ih h2]

theorem map_snd_zip_map_self {α β : Type} (f : α → β) (l : List α) :
    ((l.map f).zip l).map Prod.snd = l := by
  induction l with
  | nil => simp
  | cons b bs ih => simp [ih]

theorem IrrepsMap.lookup?_set_self (m : IrrepsMap) (k : String) (v : Option Irreps) :
    (m.set k v).lookup? k = some v := by
  induction m with
  | nil => simp [IrrepsMap.set, IrrepsMap.lookup?]
  | cons hd rest ih =>
    by_cases h : hd.1 = k <;> simp [IrrepsMap.set, IrrepsMap.lookup?, h, ih]

theorem IrrepsMap.lookup?_set_ne (m : IrrepsMap) (k k₂ : String) (v : Option Irreps)
    (h : k₂ ≠ k) : (m.set k v).lookup? k₂ = m.lookup? k₂ := by
  induction m with
  | nil => simp [IrrepsMap.set, IrrepsMap.lookup?, Ne.symm h]
  | cons hd rest ih =>
    obtain ⟨k₁, t⟩ := hd
    by_cases h1 : k₁ = k
    · subst h1
      simp [IrrepsMap.set, IrrepsMap.lookup?, Ne.symm h]
    · by_cases h2 : k₁ = k₂ <;> simp [IrrepsMap.set, IrrepsMap.lookup?, h1, h2, h, ih]

/-- The output-irreps registration loop of `GradientOutput.__init__`
(lines 64-66), abstracted over the pair list. -/
def setOutIrreps (iin : IrrepsMap) (pairs : List (String × String))
    (acc : IrrepsMap) : Except String IrrepsMap :=
  pairs.foldlM (fun acc p =>
    match iin.lookup? p.2 with
    | some v => Except.ok (acc.set p.1 v)
    | none => Except.error ("KeyError: " ++ p.2)) acc

theorem setOutIrreps_frame (iin : IrrepsMap) (pairs : List (String × String))
    (acc iout : IrrepsMap) (h : setOutIrreps iin pairs acc = .ok iout) (k : String)
    (hk : k ∉ pairs.map Prod.fst) : iout.lookup? k = acc.lookup? k := by
  induction pairs generalizing acc with
  | nil =>
    cases h
    rfl
  | cons p rest ih =>
    obtain ⟨o, wk⟩ := p
    unfold setOutIrreps at h
    simp only [List.foldlM, bind, Except.bind] at h
    cases hl : iin.lookup? wk with
    | none => rw [hl] at h; exact absurd h (by simp)
    | some v =>
      rw [hl] at h
      have hk2 : k ∉ rest.map Prod.fst := fun hh => hk (by simp [hh])
      have hko : k ≠ o := fun hh => hk (by simp [hh])
      rw [ih _ h hk2, IrrepsMap.lookup?_set_ne _ _ _ _ hko]

/-- With duplicate-free output names, every registered output field ends up
declared with exactly its wrt field's representation type. -/
theorem setOutIrreps_lookup (iin : IrrepsMap) (pairs : List (String × String))
    (acc iout : IrrepsMap) (h : setOutIrreps iin pairs acc = .ok iout)
    (hnd : (pairs.map Prod.fst).Nodup) :
    ∀ p ∈ pairs, ∃ v, iin.lookup? p.2 = some v ∧ iout.lookup? p.1 = some v := by
  induction pairs generalizing acc with
  | nil => simp
  | cons q rest ih =>
    obtain ⟨o, wk⟩ := q
    unfold setOutIrreps at h
    simp only [List.foldlM, bind, Except.bind] at h
    cases hl : iin.lookup? wk with
    | none => rw [hl] at h; exact absurd h (by simp)
    | some v =>
      rw [hl] at h
      rw [List.map_cons] at hnd
      have hnd2 := List.nodup_cons.mp hnd
      intro p hp
      rcases List.mem_cons.mp hp with hp1 | hp2
      · subst hp1
        refine ⟨v, hl, ?_⟩
        rw [setOutIrreps_frame iin rest _ _ h o hnd2.1, IrrepsMap.lookup?_set_self]
      · exact ih _ h hnd2.2 p hp2

/-- Inversion of `GradientOutput.initCore`. -/
theorem initCore_inv (f : GModel) (of : String) (w : Sum String (List String))
    (o : Option (Sum String (List String)))
    (r : List String × List String × IrrepsMap × IrrepsMap)
    (h : GradientOutput.initCore f of w o = .ok r) :
    ∃ iout0,
      r.1 = (match w with | .inl s => [s] | .inr l => l) ∧
      r.2.1.length = r.1.length ∧
      initIrreps f.irreps_in [(of, some scalarIrreps)] f.irreps_out =
        .ok (r.2.2.1, iout0) ∧
      setOutIrreps r.2.2.1 (r.2.1.zip r.1) iout0 = .ok r.2.2.2 := by
  unfold GradientOutput.initCore at h
  simp only [bind, Except.bind] at h
  split at h
  · split at h
    · exact absurd h (by simp)
    rename_i pr hii
    obtain ⟨iin, iout0⟩ := pr
    split at h
    · exact absurd h (by simp)
    rename_i iout hfold
    cases h
    refine ⟨iout0, rfl, by simp, hii, hfold⟩
  · rename_i l hsome
    split at h
    · rename_i hlen
      split at h
      · exact absurd h (by simp)
      rename_i pr hii
      obtain ⟨iin, iout0⟩ := pr
      split at h
      · exact absurd h (by simp)
      rename_i iout hfold
      cases h
      refine ⟨iout0, rfl, hlen, hii, hfold⟩
    · exact absurd h (by simp)

/-- Inversion of `GradientOutput.init`. -/
theorem init_inv (f : GModel) (of : String) (w : Sum String (List String))
    (o : Option (Sum String (List String))) (sg : ℚ) (g : GradientOutput)
    (hg : GradientOutput.init f of w o sg = .ok g) :
    (sg = 1 ∨ sg = -1) ∧ g.sign = sg ∧ g._negate = decide (sg = -1) ∧ g.of = of ∧
    g.func = f ∧
    GradientOutput.initCore f of w o = .ok (g.wrt, g.out_field, g.irreps_in, g.irreps_out) := by
  unfold GradientOutput.init at hg
  split at hg
  · rename_i hs
    split at hg
    · exact absurd hg (by simp)
    rename_i wrtL outL iin iout hcore
    cases hg
    exact ⟨hs, rfl, rfl, rfl, rfl, hcore⟩
  · exact absurd hg (by simp)

theorem TVal.dims_neg (v : TVal) : v.neg.dims = v.dims := by
  cases v <;> simp [TVal.neg, TVal.dims]

theorem get?_zip_of_both {α β : Type} (l1 : List α) (l2 : List β) (i : Nat)
    (a : α) (b : β) (h1 : l1[i]? = some a) (h2 : l2[i]? = some b) :
    (l1.zip l2)[i]? = some (a, b) := by
  induction l1 generalizing l2 i with
  | nil => simp at h1
  | cons x xs ih =>
    cases l2 with
    | nil => simp at h2
    | cons y ys =>
      cases i with
      | zero =>
        simp only [List.getElem?_cons_zero, Option.some.injEq] at h1 h2
        simp [List.zip_cons_cons, h1, h2]
      | succ n =>
        simp only [List.getElem?_cons_succ] at h1 h2
        simp [List.zip_cons_cons, ih ys n h1 h2]

/-- The differentiation engine returns, for every produced gradient, a
tensor of the same shape as its wrt tensor (what `torch.autograd.grad`
guarantees). -/
def ShapePreserving (gf : GradFn) : Prop :=
  ∀ (s : ℚ) (ts : List Tensor) (tr : Bool),
    (gf s ts tr).length = ts.length ∧
    ∀ (i : Nat) (t gt : Tensor), ts[i]? = some t →
      (gf s ts tr)[i]? = some (some gt) → gt.val.dims = t.val.dims

theorem dims_onesLike (v : TVal) : (onesLike v).dims = v.dims := by
  cases v <;> simp [onesLike, TVal.dims]

theorem shapePreserving_gfConst : ShapePreserving gfConst := by
  intro s ts tr
  refine ⟨by simp [gfConst], ?_⟩
  intro i t gt ht hgt
  simp only [gfConst, List.getElem?_map, ht, Option.map_some', Option.some.injEq] at hgt
  rw [← hgt]
  exact dims_onesLike t.val

/-! ## Claims -/

/-- C3: for every input state, a state returned by
`StressOutput.forward` contains no synthetic strain field: the
`_displacement` entry is created inside the call and deleted before the
call returns. -/
theorem C3_no_strain_leak (gradFn : GradFn) (training : Bool) (m : StressOutput)
    (d d' : ADict) (h : StressOutput.forward gradFn training m d = .ok d') :
    d'.get? DISPLACEMENT_KEY = none := by
  unfold StressOutput.forward at h
  split at h
  · exact absurd h (by simp)
  rename_i d1 batchL nb cellT hpre
  split at h
  · exact absurd h (by simp)
  rename_i d2 hgrad
  obtain ⟨f, st, sl, _, _, _, _, _, hd'⟩ := stressPost_inv cellT nb d2 d' h
  rw [hd']
  exact ADict.get?_drop_self _ _

/-- The state returned by the concrete stress run on `dTest`. -/
def stressResTest : ADict := okState (StressOutput.forward gfConst false sTest dTest)

theorem C3_no_strain_leak_witness :
    StressOutput.forward gfConst false sTest dTest = .ok stressResTest ∧
    stressResTest.get? DISPLACEMENT_KEY = none :=
  ⟨by rfl, C3_no_strain_leak gfConst false sTest dTest stressResTest (by rfl)⟩

/-- C1: in `StressOutput.forward`, each configuration's stress is divided
by the volume of that configuration's reference cell: `Mat3.volume` (the
scalar triple product `row0 . (row1 x row2)`) of the input cell after
per-batch normalization but before the `C + C . S` perturbation was
applied. -/
theorem C1_stress_divided_by_reference_volume (gradFn : GradFn) (training : Bool)
    (m : StressOutput) (d d' : ADict)
    (h : StressOutput.forward gradFn training m d = .ok d') :
    ∃ batchL nb cT cl cellT d1 d2 st sl,
      d.get? CELL_KEY = some cT ∧ cT.val = .mats cl ∧
      expandCells cl nb = some cellT ∧
      stressPre d = .ok (d1, batchL, nb, cellT) ∧
      m._grad.forward gradFn training d1 = .ok d2 ∧
      d2.get? STRESS_KEY = some st ∧ st.val = .mats sl ∧
      (d'.get? STRESS_KEY).map Tensor.val =
        some (.mats (List.zipWith (fun g c => g.scale (Mat3.volume c)⁻¹) sl cellT)) := by
  unfold StressOutput.forward at h
  split at h
  · exact absurd h (by simp)
  rename_i d1 batchL nb cellT hpre
  split at h
  · exact absurd h (by simp)
  rename_i d2 hgrad
  obtain ⟨f, st, sl, hforce, hstress, hslv, hclen, hsllen, hd'⟩ :=
    stressPost_inv cellT nb d2 d' h
  obtain ⟨d0, bT, cT, cl, pT, posL, hwb, hbT, hbv, hbne, hnb, hcT, hcv, hexp, hpT, hpv,
    hplen, hd1⟩ := stressPre_inv d d1 batchL nb cellT hpre
  refine ⟨batchL, nb, cT, cl, cellT, d1, d2, st, sl, ?_, hcv, hexp, hpre, hgrad,
    hstress, hslv, ?_⟩
  · rw [← with_batch_frame d d0 hwb CELL_KEY (by decide)]
    exact hcT
  · rw [hd']
    rw [ADict.get?_drop_ne _ _ _ (by decide : STRESS_KEY ≠ DISPLACEMENT_KEY),
      ADict.get?_set_self, Option.map_some', zipWith_scale_volume]

/-- The intermediate results of the concrete stress run on `dTest`. -/
def preResTest : ADict × List Nat × Nat × List Mat3 :=
  match stressPre dTest with
  | .ok r => r
  | .error _ => ([], [], 0, [])

theorem C1_stress_divided_by_reference_volume_witness :
    ∃ batchL nb cT cl cellT d1 d2 st sl,
      dTest.get? CELL_KEY = some cT ∧ cT.val = .mats cl ∧
      expandCells cl nb = some cellT ∧
      stressPre dTest = .ok (d1, batchL, nb, cellT) ∧
      sTest._grad.forward gfConst false d1 = .ok d2 ∧
      d2.get? STRESS_KEY = some st ∧ st.val = .mats sl ∧
      (stressResTest.get? STRESS_KEY).map Tensor.val =
        some (.mats (List.zipWith (fun g c => g.scale (Mat3.volume c)⁻¹) sl cellT)) :=
  C1_stress_divided_by_reference_volume gfConst false sTest dTest stressResTest (by rfl)

/-- C4: before the internal gradient computation of `StressOutput.forward`
runs, every position `p` is replaced by `p + p . S(config)` with `S` the
configuration's strain matrix selected by the atom's batch index, and every
cell `C` by `C + C . S`; the strain is the zero-initialized
`(num_batch, 3, 3)` tensor, so both updates are identity perturbations of
the values. -/
theorem C4_identity_perturbation (d d1 : ADict) (batchL : List Nat) (nb : Nat)
    (cellT : List Mat3) (h : stressPre d = .ok (d1, batchL, nb, cellT)) :
    ∃ pT posL cT cl,
      d.get? POSITIONS_KEY = some pT ∧ pT.val = .vecs posL ∧
      d.get? CELL_KEY = some cT ∧ cT.val = .mats cl ∧
      expandCells cl nb = some cellT ∧
      nb = batchL.foldl Nat.max 0 + 1 ∧
      d1.get? DISPLACEMENT_KEY = some ⟨true, .mats (List.replicate nb Mat3.zero)⟩ ∧
      (d1.get? POSITIONS_KEY).map Tensor.val = some (.vecs (List.zipWith
        (fun p b => p.add (p.rowMul ((List.replicate nb Mat3.zero).getD b Mat3.zero)))
        posL batchL)) ∧
      (d1.get? CELL_KEY).map Tensor.val = some (.mats (List.zipWith
        (fun c s => c.add (c.mulM s)) cellT (List.replicate nb Mat3.zero))) ∧
      (d1.get? POSITIONS_KEY).map Tensor.val = some (.vecs posL) ∧
      (d1.get? CELL_KEY).map Tensor.val = some (.mats cellT) := by
  obtain ⟨d0, bT, cT, cl, pT, posL, hwb, hbT, hbv, hbne, hnb, hcT, hcv, hexp, hpT, hpv,
    hplen, hd1⟩ := stressPre_inv d d1 batchL nb cellT h
  have hgp : d1.get? POSITIONS_KEY = some ⟨pT.requiresGrad || true, .vecs (List.zipWith
      (fun p b => p.add (p.rowMul ((List.replicate nb Mat3.zero).getD b Mat3.zero)))
      posL batchL)⟩ := by
    rw [hd1, ADict.get?_set_ne _ _ _ _ (by decide : POSITIONS_KEY ≠ CELL_KEY),
      ADict.get?_set_self]
  have hgc : d1.get? CELL_KEY = some ⟨cT.requiresGrad || true, .mats (List.zipWith
      (fun c s => c.add (c.mulM s)) cellT (List.replicate nb Mat3.zero))⟩ := by
    rw [hd1, ADict.get?_set_self]
  have hgd : d1.get? DISPLACEMENT_KEY =
      some (Tensor.setFlag ⟨false, .mats (List.replicate nb Mat3.zero)⟩ true) := by
    rw [hd1, ADict.get?_set_ne _ _ _ _ (by decide : DISPLACEMENT_KEY ≠ CELL_KEY),
      ADict.get?_set_ne _ _ _ _ (by decide : DISPLACEMENT_KEY ≠ POSITIONS_KEY),
      ADict.get?_set_self]
  refine ⟨pT, posL, cT, cl, ?_, hpv, ?_, hcv, hexp, hnb, ?_, ?_, ?_, ?_, ?_⟩
  · rw [← with_batch_frame d d0 hwb POSITIONS_KEY (by decide)]
    exact hpT
  · rw [← with_batch_frame d d0 hwb CELL_KEY (by decide)]
    exact hcT
  · rw [hgd]
    rfl
  · rw [hgp, Option.map_some']
  · rw [hgc, Option.map_some']
  · rw [hgp, Option.map_some']
    rw [perturbPos_zero, ← hplen, List.take_length]
  · rw [hgc, Option.map_some']
    rw [perturbCell_zero cellT nb (le_of_eq (expandCells_length cl cellT nb hexp))]

theorem C4_identity_perturbation_witness :
    ∃ pT posL cT cl,
      dTest.get? POSITIONS_KEY = some pT ∧ pT.val = .vecs posL ∧
      dTest.get? CELL_KEY = some cT ∧ cT.val = .mats cl ∧
      expandCells cl preResTest.2.2.1 = some preResTest.2.2.2 ∧
      preResTest.2.2.1 = preResTest.2.1.foldl Nat.max 0 + 1 ∧
      preResTest.1.get? DISPLACEMENT_KEY =
        some ⟨true, .mats (List.replicate preResTest.2.2.1 Mat3.zero)⟩ ∧
      (preResTest.1.get? POSITIONS_KEY).map Tensor.val = some (.vecs (List.zipWith
        (fun p b => p.add (p.rowMul ((List.replicate preResTest.2.2.1 Mat3.zero).getD b
          Mat3.zero))) posL preResTest.2.1)) ∧
      (preResTest.1.get? CELL_KEY).map Tensor.val = some (.mats (List.zipWith
        (fun c s => c.add (c.mulM s)) preResTest.2.2.2
        (List.replicate preResTest.2.2.1 Mat3.zero))) ∧
      (preResTest.1.get? POSITIONS_KEY).map Tensor.val = some (.vecs posL) ∧
      (preResTest.1.get? CELL_KEY).map Tensor.val = some (.mats preResTest.2.2.2) :=
  C4_identity_perturbation dTest preResTest.1 preResTest.2.1 preResTest.2.2.1
    preResTest.2.2.2 (by rfl)

/-- A wrapper whose wrt list names the same field twice. -/
def gTestDup : GradientOutput :=
  getOk (GradientOutput.init emTest TOTAL_ENERGY_KEY
    (.inr [POSITIONS_KEY, POSITIONS_KEY]) none 1) gDefault

/-- C2 counterexample: three concrete violations of the claim as stated.
(i) On the disconnected-gradient failure path of `GradientOutput.forward`
the positions flag is not restored: the restore loop at lines 99-100 runs
after the raise at line 93, with no try/finally around it.
(ii) On the SUCCESSFUL path of `StressOutput.forward` the positions field
of the returned state has its flag forced on although the caller passed it
off: the deformation replaced the entry by a differentiation-enabled
tensor, and the restore writes back that tensor's acquire-time flag.
(iii) With a duplicated wrt name even `GradientOutput.forward`'s
successful path leaves the flag on: the second recorded old value is the
already-forced flag, and the restore applies it last. -/
theorem C2_counterexample :
    ((dGradTest.get? POSITIONS_KEY).map Tensor.requiresGrad = some false ∧
     GradientOutput.forward gfNone false gTestP dGradTest =
       .error (gradErrorMsg,
         errState (GradientOutput.forward gfNone false gTestP dGradTest)) ∧
     ((errState (GradientOutput.forward gfNone false gTestP dGradTest)).get?
       POSITIONS_KEY).map Tensor.requiresGrad = some true) ∧
    ((dTest.get? POSITIONS_KEY).map Tensor.requiresGrad = some false ∧
     StressOutput.forward gfConst false sTest dTest = .ok stressResTest ∧
     (stressResTest.get? POSITIONS_KEY).map Tensor.requiresGrad = some true) ∧
    (gTestDup.wrt = [POSITIONS_KEY, POSITIONS_KEY] ∧
     (dGradTest.get? POSITIONS_KEY).map Tensor.requiresGrad = some false ∧
     GradientOutput.forward gfConst false gTestDup dGradTest =
       .ok (okState (GradientOutput.forward gfConst false gTestDup dGradTest)) ∧
     ((okState (GradientOutput.forward gfConst false gTestDup dGradTest)).get?
       POSITIONS_KEY).map Tensor.requiresGrad = some true) :=
  ⟨⟨by rfl, by rfl, by rfl⟩, ⟨by rfl, by rfl, by rfl⟩, ⟨by rfl, by rfl, by rfl, by rfl⟩⟩

/-- C2 (amended): flag restoration holds exactly where the counterexample
leaves room.  (1) On the successful return path of
`GradientOutput.forward` with duplicate-free wrt names, every wrt field's
requires-grad flag in the returned state equals its pre-call value.
(2) For `StressOutput.forward` even a successful call returns the
positions field with its flag forced on, whatever the caller passed: the
perturbed positions tensor descends from the differentiation-enabled
strain, so its recorded and restored flag is always on.  (On the
disconnected-gradient failure path no flags are restored at all: see the
counterexample.) -/
theorem C2_flags_restored_on_success :
    (∀ (gf : GradFn) (tr : Bool) (g : GradientOutput) (d d' : ADict),
      g.wrt.Nodup → g.forward gf tr d = .ok d' →
      ∀ k ∈ g.wrt,
        (d'.get? k).map Tensor.requiresGrad = (d.get? k).map Tensor.requiresGrad) ∧
    (∀ (gf : GradFn) (tr : Bool) (m : StressOutput) (d d' : ADict),
      m._grad.wrt = [POSITIONS_KEY, DISPLACEMENT_KEY] →
      StressOutput.forward gf tr m d = .ok d' →
      (d'.get? POSITIONS_KEY).map Tensor.requiresGrad = some true) := by
  constructor
  · intro gf tr g d d' hnd h
    obtain ⟨dA, olds, ts, ofT, d3, hacq, hof, hw, hr⟩ := gradForward_ok_inv gf tr g d d' h
    have holds := acquireFlags_olds g.wrt d [] [] dA olds ts hacq hnd
    simp only [List.nil_append] at holds
    intro k hk
    obtain ⟨w, hwk⟩ := Option.isSome_iff_exists.mp
      (acquireFlags_present g.wrt d [] [] dA olds ts hacq k hk)
    have hmem : (((d.get? k).map Tensor.requiresGrad).getD false, k) ∈ olds.zip g.wrt := by
      rw [holds]
      exact mem_zip_map_self _ g.wrt k hk
    have hnd2 : ((olds.zip g.wrt).map Prod.snd).Nodup := by
      rw [holds, map_snd_zip_map_self]
      exact hnd
    have := restoreFlags_flags (olds.zip g.wrt) d3 d' hr hnd2 _ hmem
    rw [this, hwk]
    rfl
  · intro gf tr m d d' hwrt h
    unfold StressOutput.forward at h
    split at h
    · exact absurd h (by simp)
    rename_i d1 batchL nb cellT hpre
    split at h
    · exact absurd h (by simp)
    rename_i d2 hgrad
    obtain ⟨d0, bT, cT, cl, pT, posL, hwb, hbT, hbv, hbne, hnb, hcT, hcv, hexp, hpT, hpv,
      hplen, hd1⟩ := stressPre_inv d d1 batchL nb cellT hpre
    -- the perturbed positions in d1 carry the flag forced on
    have hgpf : (d1.get? POSITIONS_KEY).map Tensor.requiresGrad = some true := by
      rw [hd1, ADict.get?_set_ne _ _ _ _ (by decide : POSITIONS_KEY ≠ CELL_KEY),
        ADict.get?_set_self]
      simp
    obtain ⟨dA, olds, ts, ofT, d3, hacq, hof, hwrite, hrestore⟩ :=
      gradForward_ok_inv gf tr m._grad d1 d2 hgrad
    have hnd : m._grad.wrt.Nodup := by
      rw [hwrt]
      decide
    have holds := acquireFlags_olds m._grad.wrt d1 [] [] dA olds ts hacq hnd
    simp only [List.nil_append] at holds
    have hfst : ((d1.get? POSITIONS_KEY).map Tensor.requiresGrad).getD false = true := by
      rw [hgpf]
      rfl
    have hmem : (true, POSITIONS_KEY) ∈ olds.zip m._grad.wrt := by
      rw [holds]
      have h2 := mem_zip_map_self
        (fun k => ((d1.get? k).map Tensor.requiresGrad).getD false) m._grad.wrt
        POSITIONS_KEY (by rw [hwrt]; simp)
      simp only at h2
      rw [hfst] at h2
      exact h2
    have hnd2 : ((olds.zip m._grad.wrt).map Prod.snd).Nodup := by
      rw [holds, map_snd_zip_map_self]
      exact hnd
    have hflag := restoreFlags_flags (olds.zip m._grad.wrt) d3 d2 hrestore hnd2 _ hmem
    -- the post-processing never touches the positions field
    obtain ⟨f2, st, sl, hforce, hstress, hslv, hclen, hsllen, hd'⟩ :=
      stressPost_inv cellT nb d2 d' h
    rw [hd', ADict.get?_drop_ne _ _ _ (by decide : POSITIONS_KEY ≠ DISPLACEMENT_KEY),
      ADict.get?_set_ne _ _ _ _ (by decide : POSITIONS_KEY ≠ STRESS_KEY),
      ADict.get?_set_ne _ _ _ _ (by decide : POSITIONS_KEY ≠ FORCE_KEY)]
    exact hflag

theorem C2_flags_restored_on_success_witness :
    (((okState (GradientOutput.forward gfConst false gTestP dGradTest)).get?
        POSITIONS_KEY).map Tensor.requiresGrad =
      (dGradTest.get? POSITIONS_KEY).map Tensor.requiresGrad) ∧
    (stressResTest.get? POSITIONS_KEY).map Tensor.requiresGrad = some true :=
  ⟨C2_flags_restored_on_success.1 gfConst false gTestP dGradTest
     (okState (GradientOutput.forward gfConst false gTestP dGradTest))
     (by decide) (by rfl) POSITIONS_KEY (by decide),
   C2_flags_restored_on_success.2 gfConst false sTest dTest stressResTest
     (by rfl) (by rfl)⟩

/-- C5 counterexample: the disconnected-gradient diagnostic does not
identify which wrt entry is disconnected: disconnecting the first wrt
entry and disconnecting the second produce the identical fixed message. -/
theorem C5_counterexample :
    gTest2.wrt = [POSITIONS_KEY, CELL_KEY] ∧
    errMsgOf (GradientOutput.forward gfDropFirst false gTest2 dGradTest2) =
      some gradErrorMsg ∧
    errMsgOf (GradientOutput.forward gfDropSecond false gTest2 dGradTest2) =
      some gradErrorMsg ∧
    errMsgOf (GradientOutput.forward gfDropFirst false gTest2 dGradTest2) =
      errMsgOf (GradientOutput.forward gfDropSecond false gTest2 dGradTest2) :=
  ⟨by rfl, by rfl, by rfl, by rfl⟩

/-- C5 (amended): when any requested gradient resolves to "no dependency"
(`none` among the gradients zipped with the output fields), the forward
call fails fatally -- it never returns a state -- with the fixed generic
diagnostic, which does not name the disconnected entry. -/
theorem C5_fatal_generic_diagnostic (gf : GradFn) (tr : Bool)
    (g : GradientOutput) (d dA : ADict) (olds : List Bool) (ts : List Tensor)
    (ofT : Tensor)
    (hacq : acquireFlags g.wrt d [] [] = .ok (dA, olds, ts))
    (hofT : (g.func.run dA).get? g.of = some ofT)
    (hnone : ∃ p ∈ g.out_field.zip (gf ofT.val.sum ts tr), p.2 = none) :
    ∃ s, g.forward gf tr d = .error (gradErrorMsg, s) := by
  obtain ⟨s, hs⟩ := writeGrads_err_of_none g._negate
    (g.out_field.zip (gf ofT.val.sum ts tr)) (g.func.run dA) hnone
  refine ⟨s, ?_⟩
  unfold GradientOutput.forward
  simp only [hacq, hofT, hs]

/-- The acquisition stage of the concrete disconnected run. -/
def acqResTest : ADict × List Bool × List Tensor :=
  match acquireFlags gTest2.wrt dGradTest2 [] [] with
  | .ok r => r
  | .error _ => ([], [], [])

theorem C5_fatal_generic_diagnostic_witness :
    ∃ s, gTest2.forward gfNone false dGradTest2 = .error (gradErrorMsg, s) :=
  C5_fatal_generic_diagnostic gfNone false gTest2 dGradTest2 acqResTest.1
    acqResTest.2.1 acqResTest.2.2
    (((gTest2.func.run acqResTest.1).get? gTest2.of).getD defaultTensor)
    (by rfl) (by rfl) (by decide)

/-- C10: `StressOutput.forward` mutates the state before the gradient
pass, and when the internal gradient computation raises, the error carries
that mutated state with no rollback: the caller-visible state still holds
the synthetic `_displacement` field (the zero strain) and the perturbed
positions and cell. -/
theorem C10_no_rollback_on_error (gf : GradFn) (tr : Bool) (m : StressOutput)
    (d d1 : ADict) (batchL : List Nat) (nb : Nat) (cellT : List Mat3)
    (msg : String) (s : ADict)
    (hwrt : m._grad.wrt = [POSITIONS_KEY, DISPLACEMENT_KEY])
    (hout : m._grad.out_field = [FORCE_KEY, STRESS_KEY])
    (hfunc : ∀ (st : ADict) (k : String),
      k = POSITIONS_KEY ∨ k = CELL_KEY ∨ k = DISPLACEMENT_KEY →
      (m._grad.func.run st).get? k = st.get? k)
    (hpre : stressPre d = .ok (d1, batchL, nb, cellT))
    (herr : m._grad.forward gf tr d1 = .error (msg, s)) :
    StressOutput.forward gf tr m d = .error (msg, s) ∧
    (s.get? DISPLACEMENT_KEY).map Tensor.val =
      some (.mats (List.replicate nb Mat3.zero)) ∧
    (s.get? POSITIONS_KEY).map Tensor.val = (d1.get? POSITIONS_KEY).map Tensor.val ∧
    (s.get? CELL_KEY).map Tensor.val = (d1.get? CELL_KEY).map Tensor.val := by
  -- the fields stressPre installed
  obtain ⟨d0, bT, cT, cl, pT, posL, hwb, hbT, hbv, hbne, hnb, hcT, hcv, hexp, hpT, hpv,
    hplen, hd1⟩ := stressPre_inv d d1 batchL nb cellT hpre
  have hgp : (d1.get? POSITIONS_KEY).isSome := by
    rw [hd1, ADict.get?_set_ne _ _ _ _ (by decide : POSITIONS_KEY ≠ CELL_KEY),
      ADict.get?_set_self]
    rfl
  have hgc : (d1.get? CELL_KEY).isSome := by
    rw [hd1, ADict.get?_set_self]
    rfl
  have hgd : d1.get? DISPLACEMENT_KEY =
      some ⟨true, .mats (List.replicate nb Mat3.zero)⟩ := by
    rw [hd1, ADict.get?_set_ne _ _ _ _ (by decide : DISPLACEMENT_KEY ≠ CELL_KEY),
      ADict.get?_set_ne _ _ _ _ (by decide : DISPLACEMENT_KEY ≠ POSITIONS_KEY),
      ADict.get?_set_self]
    rfl
  have hpres : ∀ k ∈ m._grad.wrt, (d1.get? k).isSome := by
    rw [hwrt]
    intro k hk
    rcases List.mem_cons.mp hk with h1 | h2
    · rw [h1]
      exact hgp
    · rcases List.mem_cons.mp h2 with h3 | h4
      · rw [h3, hgd]
        rfl
      · simp at h4
  -- split the failing gradient call into its stages
  rcases gradForward_err_inv gf tr m._grad d1 (msg, s) herr with hacqe | hrest
  · obtain ⟨dA, olds, ts, hacq⟩ := acquireFlags_ok m._grad.wrt d1 [] [] hpres
    rw [hacq] at hacqe
    exact absurd hacqe (by simp)
  obtain ⟨dA, olds, ts, hacq, hcase⟩ := hrest
  -- the acquired state: wrt flags forced on, everything else untouched
  have hstate := acquireFlags_state m._grad.wrt d1 [] [] dA olds ts hacq
  have hdisp : dA.get? DISPLACEMENT_KEY =
      some ⟨true, .mats (List.replicate nb Mat3.zero)⟩ := by
    rw [hstate DISPLACEMENT_KEY, hwrt]
    simp [hgd, Tensor.setFlag]
  have hposA : (dA.get? POSITIONS_KEY).map Tensor.val =
      (d1.get? POSITIONS_KEY).map Tensor.val := by
    rw [hstate POSITIONS_KEY]
    by_cases hmem : POSITIONS_KEY ∈ m._grad.wrt
    · simp only [hmem, if_true]
      cases d1.get? POSITIONS_KEY <;> rfl
    · simp [hmem]
  have hcellA : dA.get? CELL_KEY = d1.get? CELL_KEY := by
    rw [hstate CELL_KEY, hwrt,
      if_neg (by decide : ¬ CELL_KEY ∈ [POSITIONS_KEY, DISPLACEMENT_KEY])]
  -- whichever stage raised, the three fields carry over to the error state
  have hfields : ∀ k, (k = POSITIONS_KEY ∨ k = CELL_KEY ∨ k = DISPLACEMENT_KEY) →
      s.get? k = (m._grad.func.run dA).get? k := by
    rcases hcase with ⟨hofn, he⟩ | ⟨ofT, hofT, hwcase⟩
    · intro k _
      rw [(Prod.mk.injEq _ _ _ _).mp he |>.2]
    · rcases hwcase with hwe | ⟨d3, hwok, hre⟩
      · intro k hk
        have hnotin : k ∉ (m._grad.out_field.zip (gf ofT.val.sum ts tr)).map Prod.fst := by
          intro hmem
          obtain ⟨p, hp, hpk⟩ := List.mem_map.mp hmem
          have hfst := (List.of_mem_zip hp).1
          rw [hout, hpk] at hfst
          rcases hk with h1 | h1 | h1 <;> rw [h1] at hfst <;> exact absurd hfst (by decide)
        have := writeGrads_err m._grad._negate _ _ _ hwe
        rw [← this.2 k hnotin]
      · -- the restore pass cannot itself fail here
        exfalso
        have hd3 : ∀ k ∈ m._grad.wrt, (d3.get? k).isSome := by
          intro k hk
          have hnotin : k ∉ (m._grad.out_field.zip (gf ofT.val.sum ts tr)).map
              Prod.fst := by
            intro hmem
            obtain ⟨p, hp, hpk⟩ := List.mem_map.mp hmem
            have hfst := (List.of_mem_zip hp).1
            rw [hout, hpk] at hfst
            rw [hwrt] at hk
            rcases List.mem_cons.mp hk with h1 | h2
            · rw [h1] at hfst
              exact absurd hfst (by decide)
            · rcases List.mem_cons.mp h2 with h3 | h4
              · rw [h3] at hfst
                exact absurd hfst (by decide)
              · simp at h4
          rw [writeGrads_ok_frame _ _ _ _ hwok k hnotin]
          rw [hwrt] at hk
          rcases List.mem_cons.mp hk with h1 | h2
          · rw [h1, hfunc dA POSITIONS_KEY (Or.inl rfl)]
            have := hstate POSITIONS_KEY
            rw [hwrt] at this
            rw [this]
            simp only [List.mem_cons, true_or, if_true]
            have := hgp
            cases hh : d1.get? POSITIONS_KEY
            · rw [hh] at this
              exact absurd this (by simp)
            · rfl
          · rcases List.mem_cons.mp h2 with h3 | h4
            · rw [h3, hfunc dA DISPLACEMENT_KEY (Or.inr (Or.inr rfl)), hdisp]
              rfl
            · simp at h4
        have hrs : ∀ p ∈ olds.zip m._grad.wrt, (d3.get? p.2).isSome := by
          intro p hp
          exact hd3 p.2 (List.of_mem_zip hp).2
        obtain ⟨d4, hd4⟩ := restoreFlags_ok (olds.zip m._grad.wrt) d3 hrs
        rw [hd4] at hre
        exact absurd hre (by simp)
  refine ⟨?_, ?_, ?_, ?_⟩
  · unfold StressOutput.forward
    simp only [hpre, herr]
  · rw [hfields DISPLACEMENT_KEY (Or.inr (Or.inr rfl)),
      hfunc dA DISPLACEMENT_KEY (Or.inr (Or.inr rfl)), hdisp]
    rfl
  · rw [hfields POSITIONS_KEY (Or.inl rfl),
      hfunc dA POSITIONS_KEY (Or.inl rfl), hposA]
  · rw [hfields CELL_KEY (Or.inr (Or.inl rfl)),
      hfunc dA CELL_KEY (Or.inr (Or.inl rfl)), hcellA]

/-- The type-registry check rejects a non-scalar differentiation target. -/
theorem initIrreps_err_of_bad_of (irreps_in irreps_out : IrrepsMap) (of : String)
    (ir : Irreps) (hlook : irreps_in.lookup? of = some (some ir))
    (hir : ir ≠ scalarIrreps) :
    initIrreps irreps_in [(of, some scalarIrreps)] irreps_out =
      .error "ValueError: input irreps incompatible with this configuration" := by
  unfold initIrreps
  rw [if_neg]
  simp [hlook, IrrepsMap.compatible, hir]

/-- C6: each construction-time contract violation (sign not exactly 1 or
-1, an explicit output-field list whose length differs from the wrt count,
a target field declared with a non-scalar representation type,
`do_forces=false` for `StressOutput`) makes construction itself return an
error, so no wrapper exists whose forward could be called: nothing is
deferred to a forward call. -/
theorem C6_construction_time_failures :
    (∀ (f : GModel) (of : String) (w : Sum String (List String))
        (o : Option (Sum String (List String))) (s : ℚ), ¬(s = 1 ∨ s = -1) →
        GradientOutput.init f of w o s = .error "AssertionError: sign must be 1 or -1") ∧
    (∀ (f : GModel) (of : String) (ws os : List String) (s : ℚ), (s = 1 ∨ s = -1) →
        os.length ≠ ws.length →
        GradientOutput.init f of (.inr ws) (some (.inr os)) s =
          .error "AssertionError: Out field names must be given for all w.r.t tensors") ∧
    (∀ (f : GModel) (of : String) (w : Sum String (List String))
        (o : Option (Sum String (List String))) (s : ℚ) (ir : Irreps),
        (s = 1 ∨ s = -1) → f.irreps_in.lookup? of = some (some ir) →
        ir ≠ scalarIrreps → ∃ e, GradientOutput.init f of w o s = .error e) ∧
    (∀ em : GModel, StressOutput.init em false = .error "NotImplementedError") := by
  refine ⟨?_, ?_, ?_, ?_⟩
  · intro f of w o s hs
    unfold GradientOutput.init
    rw [if_neg hs]
  · intro f of ws os s hs hlen
    unfold GradientOutput.init
    rw [if_pos hs]
    have hcore : GradientOutput.initCore f of (.inr ws) (some (.inr os)) =
        .error "AssertionError: Out field names must be given for all w.r.t tensors" := by
      unfold GradientOutput.initCore
      simp only [bind, Except.bind]
      rw [if_neg hlen]
    rw [hcore]
  · intro f of w o s ir hs hlook hir
    unfold GradientOutput.init
    rw [if_pos hs]
    have hcore : ∃ e, GradientOutput.initCore f of w o = .error e := by
      unfold GradientOutput.initCore
      simp only [bind, Except.bind]
      have hii := initIrreps_err_of_bad_of f.irreps_in f.irreps_out of ir hlook hir
      cases o with
      | none =>
        rw [hii]
        exact ⟨_, rfl⟩
      | some wo =>
        cases wo with
        | inl s2 =>
          simp only []
          by_cases hl : [s2].length = (match w with | .inl s3 => [s3] | .inr l => l).length
          · rw [if_pos hl, hii]
            exact ⟨_, rfl⟩
          · rw [if_neg hl]
            exact ⟨_, rfl⟩
        | inr l2 =>
          simp only []
          by_cases hl : l2.length = (match w with | .inl s3 => [s3] | .inr l => l).length
          · rw [if_pos hl, hii]
            exact ⟨_, rfl⟩
          · rw [if_neg hl]
            exact ⟨_, rfl⟩
    obtain ⟨e, he⟩ := hcore
    rw [he]
    exact ⟨e, rfl⟩
  · intro em
    rfl

theorem C6_construction_time_failures_witness :
    GradientOutput.init emTest "E" (.inl "x") none 5 =
      .error "AssertionError: sign must be 1 or -1" ∧
    GradientOutput.init emTest "E" (.inr ["a", "b"]) (some (.inr ["c"])) 1 =
      .error "AssertionError: Out field names must be given for all w.r.t tensors" ∧
    (∃ e, GradientOutput.init emBadOf TOTAL_ENERGY_KEY (.inl POSITIONS_KEY) none 1 =
      .error e) ∧
    StressOutput.init emTest false = .error "NotImplementedError" :=
  ⟨C6_construction_time_failures.1 emTest "E" (.inl "x") none 5 (by decide),
   C6_construction_time_failures.2.1 emTest "E" ["a", "b"] ["c"] 1 (Or.inl rfl)
     (by decide),
   C6_construction_time_failures.2.2.1 emBadOf TOTAL_ENERGY_KEY (.inl POSITIONS_KEY)
     none 1 "1o" (Or.inl rfl) (by rfl) (by decide),
   C6_construction_time_failures.2.2.2 emTest⟩

/-- C9: a single string given for `wrt` (or `out_field`) is coerced to the
one-element list, yielding the very same constructed wrapper, and hence
the same result from every later forward call. -/
theorem C9_string_coercion :
    (∀ (f : GModel) (of s : String) (o : Option (Sum String (List String))) (sg : ℚ),
        GradientOutput.init f of (.inl s) o sg =
          GradientOutput.init f of (.inr [s]) o sg) ∧
    (∀ (f : GModel) (of : String) (w : Sum String (List String)) (s : String) (sg : ℚ),
        GradientOutput.init f of w (some (.inl s)) sg =
          GradientOutput.init f of w (some (.inr [s])) sg) ∧
    (∀ (f : GModel) (of s : String) (o : Option (Sum String (List String))) (sg : ℚ)
        (g g' : GradientOutput) (gf : GradFn) (tr : Bool) (d : ADict),
        GradientOutput.init f of (.inl s) o sg = .ok g →
        GradientOutput.init f of (.inr [s]) o sg = .ok g' →
        g.forward gf tr d = g'.forward gf tr d) := by
  refine ⟨fun f of s o sg => rfl, fun f of w s sg => rfl, ?_⟩
  intro f of s o sg g g' gf tr d h1 h2
  have hco : GradientOutput.init f of (.inl s) o sg =
      GradientOutput.init f of (.inr [s]) o sg := rfl
  rw [hco, h2] at h1
  cases h1
  rfl

theorem C9_string_coercion_witness :
    GradientOutput.init emTest TOTAL_ENERGY_KEY (.inl POSITIONS_KEY)
      (some (.inl FORCE_KEY)) 1 =
      GradientOutput.init emTest TOTAL_ENERGY_KEY (.inr [POSITIONS_KEY])
        (some (.inl FORCE_KEY)) 1 ∧
    gTestP.forward gfConst false dGradTest = gTestP.forward gfConst false dGradTest :=
  ⟨C9_string_coercion.1 emTest TOTAL_ENERGY_KEY POSITIONS_KEY (some (.inl FORCE_KEY)) 1,
   C9_string_coercion.2.2 emTest TOTAL_ENERGY_KEY POSITIONS_KEY (some (.inl FORCE_KEY))
     1 gTestP gTestP gfConst false dGradTest (by rfl) (by rfl)⟩

theorem mem_of_get?_eq {α : Type} (l : List α) (i : Nat) (a : α)
    (h : l[i]? = some a) : a ∈ l := by
  induction l generalizing i with
  | nil => simp at h
  | cons x xs ih =>
    cases i with
    | zero =>
      simp only [List.getElem?_cons_zero, Option.some.injEq] at h
      simp [h]
    | succ n =>
      simp only [List.getElem?_cons_succ] at h
      exact List.mem_cons_of_mem _ (ih n h)

theorem lt_length_of_get?_eq {α : Type} (l : List α) (i : Nat) (a : α)
    (h : l[i]? = some a) : i < l.length := by
  by_contra hh
  rw [List.getElem?_eq_none (Nat.le_of_not_lt hh)] at h
  exact absurd h (by simp)

/-- C8: at construction, each output field of `GradientOutput` is declared
with exactly the representation type of its wrt field (a construction-time
computation on the wrapper's declared type sets, no forward call involved);
consequently, with a shape-preserving differentiation engine, each gradient
output written by `forward` has the shape of its wrt input -- the force
field the per-atom-vector shape of positions, the stress field the
`(num_batch, 3, 3)` shape of the strain. -/
theorem C8_output_irreps_and_shapes (f : GModel) (of : String)
    (w : Sum String (List String)) (o : Option (Sum String (List String))) (sg : ℚ)
    (g : GradientOutput) (hg : GradientOutput.init f of w o sg = .ok g) :
    g.out_field.length = g.wrt.length ∧
    (g.out_field.Nodup →
      ∀ (i : Nat) (ok wk : String), g.out_field[i]? = some ok → g.wrt[i]? = some wk →
        ∃ v, g.irreps_in.lookup? wk = some v ∧ g.irreps_out.lookup? ok = some v) ∧
    (∀ (gf : GradFn), ShapePreserving gf → ∀ (tr : Bool) (d d' : ADict),
      g.forward gf tr d = .ok d' → g.out_field.Nodup →
      ∀ (i : Nat) (ok wk : String), g.out_field[i]? = some ok → g.wrt[i]? = some wk →
        ∃ t w0, d'.get? ok = some t ∧ d.get? wk = some w0 ∧
          t.val.dims = w0.val.dims) := by
  obtain ⟨hsign, hgs, hgn, hgof, hgf, hcore⟩ := init_inv f of w o sg g hg
  obtain ⟨iout0, hwrtL, hlen, hii, hfold⟩ := initCore_inv f of w o _ hcore
  simp only [] at hwrtL hlen hii hfold
  refine ⟨hlen, ?_, ?_⟩
  · intro hnd i ok wk hok hwk
    have hpair : (g.out_field.zip g.wrt)[i]? = some (ok, wk) :=
      get?_zip_of_both _ _ i ok wk hok hwk
    have hmem := mem_of_get?_eq _ i _ hpair
    have hndp : ((g.out_field.zip g.wrt).map Prod.fst).Nodup := by
      rw [List.map_fst_zip _ _ (le_of_eq hlen)]
      exact hnd
    exact setOutIrreps_lookup g.irreps_in _ iout0 g.irreps_out hfold hndp _ hmem
  · intro gf hsp tr d d' hfw hnd i ok wk hok hwk
    obtain ⟨dA, olds, ts, ofT, d3, hacq, hof, hwrite, hrestore⟩ :=
      gradForward_ok_inv gf tr g d d' hfw
    have hts := acquireFlags_ts g.wrt d [] [] dA olds ts hacq
    simp only [List.nil_append] at hts
    have hwmem := mem_of_get?_eq _ i _ hwk
    obtain ⟨w0, hw0⟩ := Option.isSome_iff_exists.mp
      (acquireFlags_present g.wrt d [] [] dA olds ts hacq wk hwmem)
    have htsi : ts[i]? = some (w0.setFlag true) := by
      rw [hts, List.getElem?_map, hwk]
      simp [hw0]
    have hgl := (hsp ofT.val.sum ts tr).1
    have hil : i < (gf ofT.val.sum ts tr).length := by
      rw [hgl]
      exact lt_length_of_get?_eq ts i _ htsi
    cases hgi : (gf ofT.val.sum ts tr)[i]? with
    | none =>
      rw [List.getElem?_eq_none_iff] at hgi
      exact absurd hil (Nat.not_lt_of_le hgi)
    | some og =>
      have hpair : (g.out_field.zip (gf ofT.val.sum ts tr))[i]? = some (ok, og) :=
        get?_zip_of_both _ _ i _ _ hok hgi
      have hpmem := mem_of_get?_eq _ i _ hpair
      have hglen : (gf ofT.val.sum ts tr).length = g.out_field.length := by
        rw [hgl, hts, List.length_map, hlen]
      have hndp : ((g.out_field.zip (gf ofT.val.sum ts tr)).map Prod.fst).Nodup := by
        rw [List.map_fst_zip _ _ (le_of_eq hglen.symm)]
        exact hnd
      have hwritten := writeGrads_written g._negate _ _ d3 hwrite hndp _ hpmem
      obtain ⟨g', hg', hd3⟩ := hwritten
      have hg2 : og = some g' := hg'
      have hd3' : d3.get? ok = some (if g._negate then g'.neg else g') := hd3
      have hdims : g'.val.dims = w0.val.dims := by
        have := (hsp ofT.val.sum ts tr).2 i (w0.setFlag true) g' htsi
          (by rw [hgi]; exact congrArg some hg2)
        simpa [Tensor.setFlag] using this
      have hval := restoreFlags_val (olds.zip g.wrt) d3 d' hrestore ok
      rw [hd3'] at hval
      cases hdo : d'.get? ok with
      | none =>
        rw [hdo] at hval
        exact absurd hval (by simp)
      | some t =>
        rw [hdo] at hval
        refine ⟨t, w0, rfl, hw0, ?_⟩
        simp only [Option.map_some', Option.some.injEq] at hval
        rw [hval]
        cases hneg : g._negate <;> simp [hneg, Tensor.neg, TVal.dims_neg, hdims]

theorem C8_output_irreps_and_shapes_witness :
    (∃ v, gTestP.irreps_in.lookup? POSITIONS_KEY = some v ∧
      gTestP.irreps_out.lookup? FORCE_KEY = some v) ∧
    (∃ t w0, (okState (gTestP.forward gfConst false dGradTest)).get? FORCE_KEY =
        some t ∧ dGradTest.get? POSITIONS_KEY = some w0 ∧
        t.val.dims = w0.val.dims) :=
  ⟨(C8_output_irreps_and_shapes emTest TOTAL_ENERGY_KEY (.inl POSITIONS_KEY)
      (some (.inl FORCE_KEY)) 1 gTestP (by rfl)).2.1 (by decide) 0 FORCE_KEY
      POSITIONS_KEY (by rfl) (by rfl),
   (C8_output_irreps_and_shapes emTest TOTAL_ENERGY_KEY (.inl POSITIONS_KEY)
      (some (.inl FORCE_KEY)) 1 gTestP (by rfl)).2.2 gfConst shapePreserving_gfConst
      false dGradTest (okState (gTestP.forward gfConst false dGradTest)) (by rfl)
      (by decide) 0 FORCE_KEY POSITIONS_KEY (by rfl) (by rfl)⟩

/-- The state carried by the failing internal gradient call of the
concrete disconnected stress run. -/
def gradErrTest : ADict := errState (sTest._grad.forward gfNone false preResTest.1)

theorem C10_no_rollback_on_error_witness :
    StressOutput.forward gfNone false sTest dTest = .error (gradErrorMsg, gradErrTest) ∧
    (gradErrTest.get? DISPLACEMENT_KEY).map Tensor.val =
      some (.mats (List.replicate preResTest.2.2.1 Mat3.zero)) ∧
    (gradErrTest.get? POSITIONS_KEY).map Tensor.val =
      (preResTest.1.get? POSITIONS_KEY).map Tensor.val ∧
    (gradErrTest.get? CELL_KEY).map Tensor.val =
      (preResTest.1.get? CELL_KEY).map Tensor.val :=
  C10_no_rollback_on_error gfNone false sTest dTest preResTest.1 preResTest.2.1
    preResTest.2.2.1 preResTest.2.2.2 gradErrorMsg gradErrTest (by rfl) (by rfl)
    (fun st k hk => by
      rcases hk with h | h | h <;> rw [h] <;>
        exact ADict.get?_set_ne st TOTAL_ENERGY_KEY _ _ (by decide))
    (by rfl) (by rfl)

/-- Two states that agree except that the fields satisfying `p` are
element-wise negated. -/
def negRel (p : String → Bool) (dA dB : ADict) : Prop :=
  ∀ k, dB.get? k = if p k then (dA.get? k).map Tensor.neg else dA.get? k

theorem negRel_congr (p q : String → Bool) (dA dB : ADict)
    (h : ∀ k, p k = q k) (hrel : negRel p dA dB) : negRel q dA dB := by
  intro k
  rw [← h k]
  exact hrel k

/-- Running the write pass with negation on produces, in lockstep with the
run without negation, a state whose written fields are negated. -/
theorem writeGrads_negRel (pairs : List (String × Option Tensor))
    (p : String → Bool) (dA dB dA' : ADict)
    (hA : writeGrads false pairs dA = .ok dA') (hrel : negRel p dA dB) :
    ∃ dB', writeGrads true pairs dB = .ok dB' ∧
      negRel (fun k => p k || (pairs.map Prod.fst).contains k) dA' dB' := by
  induction pairs generalizing dA dB p with
  | nil =>
    cases hA
    refine ⟨dB, rfl, ?_⟩
    intro k
    simpa using hrel k
  | cons q rest ih =>
    obtain ⟨o, og⟩ := q
    cases og with
    | none => exact absurd hA (by simp [writeGrads])
    | some g =>
      simp only [writeGrads, if_neg Bool.false_ne_true, if_pos rfl] at hA ⊢
      have hrel2 : negRel (fun k => p k || (k == o)) (dA.set o g) (dB.set o g.neg) := by
        intro k
        by_cases hk : k = o
        · subst hk
          simp [ADict.get?_set_self]
        · rw [ADict.get?_set_ne _ _ _ _ hk, ADict.get?_set_ne _ _ _ _ hk, hrel k]
          simp [hk]
      obtain ⟨dB', hB, hrelB⟩ := ih _ _ _ hA hrel2
      refine ⟨dB', hB, ?_⟩
      refine negRel_congr _ _ _ _ (fun k => ?_) hrelB
      simp [List.contains_cons, Bool.or_assoc]

/-- The restore pass preserves the negation relation. -/
theorem restoreFlags_negRel (rs : List (Bool × String)) (p : String → Bool)
    (dA dB dA' : ADict) (hA : restoreFlags rs dA = .ok dA')
    (hrel : negRel p dA dB) :
    ∃ dB', restoreFlags rs dB = .ok dB' ∧ negRel p dA' dB' := by
  induction rs generalizing dA dB with
  | nil =>
    cases hA
    exact ⟨dB, rfl, hrel⟩
  | cons q rest ih =>
    obtain ⟨b, k₁⟩ := q
    unfold restoreFlags at hA ⊢
    cases ht : dA.get? k₁ with
    | none => rw [ht] at hA; exact absurd hA (by simp)
    | some t =>
      rw [ht] at hA
      cases hp : p k₁ with
      | true =>
        have htB : dB.get? k₁ = some t.neg := by
          rw [hrel k₁, hp, ht]
          simp
        rw [htB]
        have hrel2 : negRel p (dA.set k₁ (t.setFlag b)) (dB.set k₁ (t.neg.setFlag b)) := by
          intro k
          by_cases hk : k = k₁
          · subst hk
            rw [ADict.get?_set_self, ADict.get?_set_self, hp]
            simp [Tensor.neg, Tensor.setFlag]
          · rw [ADict.get?_set_ne _ _ _ _ hk, ADict.get?_set_ne _ _ _ _ hk]
            exact hrel k
        exact ih _ _ hA hrel2
      | false =>
        have htB : dB.get? k₁ = some t := by
          rw [hrel k₁, hp, ht]
          simp
        rw [htB]
        have hrel2 : negRel p (dA.set k₁ (t.setFlag b)) (dB.set k₁ (t.setFlag b)) := by
          intro k
          by_cases hk : k = k₁
          · subst hk
            rw [ADict.get?_set_self, ADict.get?_set_self, hp]
            simp
          · rw [ADict.get?_set_ne _ _ _ _ hk, ADict.get?_set_ne _ _ _ _ hk]
            exact hrel k
        exact ih _ _ hA hrel2

/-- C7: with identical wrapped models and inputs, the wrapper built with
sign -1 produces exactly the element-wise negation of the sign +1
wrapper's output fields, and leaves every other field identical -- the
differentiation engine returning one gradient per wrt tensor, as
`torch.autograd.grad` does. -/
theorem C7_sign_negation (f : GModel) (of : String) (w : Sum String (List String))
    (o : Option (Sum String (List String))) (gp gm : GradientOutput)
    (hp : GradientOutput.init f of w o 1 = .ok gp)
    (hm : GradientOutput.init f of w o (-1) = .ok gm) (gf : GradFn)
    (hgl : ∀ (s : ℚ) (ts : List Tensor) (tr2 : Bool), (gf s ts tr2).length = ts.length)
    (tr : Bool) (d dp : ADict) (hfw : gp.forward gf tr d = .ok dp) :
    ∃ dm, gm.forward gf tr d = .ok dm ∧
      ∀ k, dm.get? k = if gp.out_field.contains k then (dp.get? k).map Tensor.neg
        else dp.get? k := by
  obtain ⟨_, _, hgnp, hofp, hfp, hcp⟩ := init_inv f of w o 1 gp hp
  obtain ⟨_, _, hgnm, hofm, hfm, hcm⟩ := init_inv f of w o (-1) gm hm
  rw [hcp] at hcm
  have hcomp := (Except.ok.injEq _ _).mp hcm
  have hwrt_eq : gp.wrt = gm.wrt := congrArg (fun r => r.1) hcomp
  have hout_eq : gp.out_field = gm.out_field := congrArg (fun r => r.2.1) hcomp
  have hfunc_eq : gp.func = gm.func := by rw [hfp, hfm]
  have hof_eq : gp.of = gm.of := by rw [hofp, hofm]
  have hnegp : gp._negate = false := by rw [hgnp]; rfl
  have hnegm : gm._negate = true := by rw [hgnm]; rfl
  obtain ⟨dA, olds, ts, ofT, d3, hacq, hof, hwrite, hrestore⟩ :=
    gradForward_ok_inv gf tr gp d dp hfw
  rw [hnegp] at hwrite
  have hrel0 : negRel (fun _ => false) (gp.func.run dA) (gp.func.run dA) := by
    intro k
    rfl
  obtain ⟨dB3, hwB, hrelB⟩ := writeGrads_negRel _ _ _ _ d3 hwrite hrel0
  -- the written names are exactly the declared output fields
  have hts := acquireFlags_ts gp.wrt d [] [] dA olds ts hacq
  simp only [List.nil_append] at hts
  obtain ⟨iout0, hwrtL, hlen, hii, hfold⟩ := initCore_inv f of w o _ hcp
  simp only [] at hlen
  have hfsts : (gp.out_field.zip (gf ofT.val.sum ts tr)).map Prod.fst =
      gp.out_field := by
    refine List.map_fst_zip _ _ ?_
    rw [hgl, hts, List.length_map, ← hlen]
  have hrelC : negRel (fun k => gp.out_field.contains k) d3 dB3 := by
    refine negRel_congr _ _ _ _ (fun k => ?_) hrelB
    rw [hfsts]
    simp
  obtain ⟨dm, hrB, hrelD⟩ := restoreFlags_negRel (olds.zip gp.wrt) _ d3 dB3 dp
    hrestore hrelC
  refine ⟨dm, ?_, hrelD⟩
  unfold GradientOutput.forward
  rw [← hwrt_eq, ← hfunc_eq, ← hof_eq, ← hout_eq]
  simp only [hacq, hof, hnegm, hwB, hrB]

theorem C7_sign_negation_witness :
    ∃ dm, gTestM.forward gfConst false dGradTest = .ok dm ∧
      ∀ k, dm.get? k = if gTestP.out_field.contains k then
        ((okState (gTestP.forward gfConst false dGradTest)).get? k).map Tensor.neg
        else (okState (gTestP.forward gfConst false dGradTest)).get? k :=
  C7_sign_negation emTest TOTAL_ENERGY_KEY (.inl POSITIONS_KEY)
    (some (.inl FORCE_KEY)) gTestP gTestM (by rfl) (by rfl) gfConst
    (fun s ts tr2 => by simp [gfConst]) false dGradTest
    (okState (gTestP.forward gfConst false dGradTest)) (by rfl)

end NequipGrad
